import Mathlib

/-!
Verification development for the contract-review worker pipeline.

Each Python function named in the claims is embedded shallowly as a Lean
definition over `List Char` strings, exact rational arithmetic (CPython float
arithmetic at the handful of sites below stays far from every decision
threshold used in the theorems, so `ℚ` is used throughout), and association
lists for `dict` values.  External collaborators (OCR backend, MinerU CLI,
the HTTP transport, the inference model) are modelled as oracle inputs; every
decision that the repository's own code makes is embedded from the source.
-/

namespace CRW

/-- Characters of a Python string; the representation of text used throughout. -/
abbrev Str := List Char

/-- Python `str.strip()` with no arguments: drop whitespace from both ends. -/
def pyStrip (s : Str) : Str :=
  ((s.dropWhile Char.isWhitespace).reverse.dropWhile Char.isWhitespace).reverse

/-- Python `str.lower()` (ASCII case folding; the CJK text used here is unaffected). -/
def pyLower (s : Str) : Str := s.map Char.toLower

/-- `needle` occurs at the start of `hay`. -/
def strStarts : Str → Str → Bool
  | [], _ => true
  | _ :: _, [] => false
  | a :: as, b :: bs => a == b && strStarts as bs

/-- Python `needle in hay` substring test. -/
def strHas (hay needle : Str) : Bool :=
  match hay with
  | [] => needle.isEmpty
  | _ :: rest => strStarts needle hay || strHas rest needle

/-- Python `str.splitlines()` restricted to the `\n`, `\r\n`, `\r` separators
that arise from the pipeline's own normalisation. -/
def pySplitlinesGo : Str → Str → List Str
  | [], acc => if acc.isEmpty then [] else [acc.reverse]
  | '\r' :: '\n' :: rest, acc => acc.reverse :: pySplitlinesGo rest []
  | '\r' :: rest, acc => acc.reverse :: pySplitlinesGo rest []
  | '\n' :: rest, acc => acc.reverse :: pySplitlinesGo rest []
  | c :: rest, acc => pySplitlinesGo rest (c :: acc)

/-- Python `str.splitlines()`. -/
def pySplitlines (s : Str) : List Str := pySplitlinesGo s []

/-- Maximal runs of equal adjacent characters, with their lengths. -/
def runsGo (c : Char) (n : Nat) : Str → List (Char × Nat)
  | [] => [(c, n)]
  | d :: rest => if d == c then runsGo c (n + 1) rest else (c, n) :: runsGo d 1 rest

/-- Maximal runs of equal adjacent characters of a string. -/
def runs : Str → List (Char × Nat)
  | [] => []
  | c :: rest => runsGo c 1 rest

/-- `len(re.findall(r"(.)\1{5,}", src))`: the number of maximal runs of six or
more identical characters (`.` does not match a newline). -/
def repeatChunks (s : Str) : Nat :=
  (runs s).countP (fun p => p.1 != '\n' && decide (6 ≤ p.2))

/-- CJK ideograph test `"一" <= ch <= "鿿"` from `_ocr_quality_metrics`. -/
def isHan (c : Char) : Bool := 0x4e00 ≤ c.toNat && c.toNat ≤ 0x9fff

/-- Python `ch.isalpha()` as used on the worker's inputs (ASCII letters; CJK
ideographs are classified by `isHan` first and never reach this test). -/
def pyIsAlpha (c : Char) : Bool := c.isAlpha

/-- Python `ch.isdigit()` on ASCII digits. -/
def pyIsDigit (c : Char) : Bool := c.isDigit

/-- The `allowed_punct` set of `_ocr_quality_metrics`. -/
def allowedPunct : List Char :=
  "，。、《》：；（）()【】“”‘’—…·,.!?;:%￥¥+-_/\\|@#*&=~".toList ++
    [Char.ofNat 39, Char.ofNat 34, Char.ofNat 96]

/-- The `_OCR_QUALITY_KEYWORDS` tuple from `main.py`. -/
def ocrQualityKeywords : List Str :=
  ["合同".toList, "协议".toList, "甲方".toList, "乙方".toList, "金额".toList,
   "违约".toList, "争议".toList, "管辖".toList, "验收".toList, "发票".toList,
   "支付".toList, "期限".toList, "保密".toList, "知识产权".toList]

/-- The dictionary returned by `_ocr_quality_metrics`. -/
structure QualityMetrics where
  score : ℚ
  char_count : Nat
  line_count : Nat
  han_r : ℚ
  alpha_r : ℚ
  garbage_r : ℚ
  keyword_hits : Nat
  repeat_chunks : Nat
deriving Repr, DecidableEq

/-- Python `round(x, 4)` (round-half-to-even coincides with round-half-up away
from ties, and no quantity in this development sits on a tie). -/
def round4 (q : ℚ) : ℚ := ((round (q * 10000) : ℤ) : ℚ) / 10000

/-- `_ocr_quality_metrics` from `main.py`. -/
def ocrQualityMetrics (text : Str) : QualityMetrics :=
  let src := pyStrip text
  if src.isEmpty then
    { score := 0, char_count := 0, line_count := 0, han_r := 0, alpha_r := 0,
      garbage_r := 1, keyword_hits := 0, repeat_chunks := 0 }
  else
    let lines := ((pySplitlines src).map pyStrip).filter (fun l => !l.isEmpty)
    let charCount := src.length
    let lineCount := lines.length
    let hanCount := src.countP (fun c => isHan c)
    let alphaCount := src.countP (fun c => !isHan c && pyIsAlpha c)
    let garbageCount := src.countP (fun c =>
      !isHan c && !pyIsAlpha c && !pyIsDigit c && !c.isWhitespace && !allowedPunct.contains c)
    let hanRatio : ℚ := (hanCount : ℚ) / (max 1 charCount : ℕ)
    let alphaRatio : ℚ := (alphaCount : ℚ) / (max 1 charCount : ℕ)
    let garbageRatio : ℚ := (garbageCount : ℚ) / (max 1 charCount : ℕ)
    let keywordHits := (ocrQualityKeywords.filter (fun kw => strHas src kw)).length
    let repChunks := repeatChunks src
    let lengthScore : ℚ := min ((charCount : ℚ) / 320) 1
    let lineScore : ℚ := min ((lineCount : ℚ) / 14) 1
    let langScore : ℚ := min (max hanRatio alphaRatio / 0.32) 1
    let keywordScore : ℚ := min ((keywordHits : ℚ) / 4) 1
    let garbagePenalty : ℚ := min (garbageRatio * 2.2) 0.55
    let repeatPenalty : ℚ := min ((repChunks : ℚ) * 0.05) 0.2
    let score :=
      0.24 * lengthScore + 0.14 * lineScore + 0.22 * langScore + 0.40 * keywordScore
        - (garbagePenalty + repeatPenalty)
    { score := round4 (max 0 (min 1 score)),
      char_count := charCount, line_count := lineCount,
      han_r := round4 hanRatio, alpha_r := round4 alphaRatio,
      garbage_r := round4 garbageRatio,
      keyword_hits := keywordHits, repeat_chunks := repChunks }

/-! ## JSON values and Python dictionaries

`dict` values are embedded as insertion-ordered association lists with unique
keys (the only shape a Python `dict` can have); `dset` updates in place or
appends, exactly like item assignment. -/

/-- A Python/JSON value as passed around by the review post-processing. -/
inductive JValue where
  | null : JValue
  | bool (b : Bool) : JValue
  | num (q : ℚ) : JValue
  | str (s : Str) : JValue
  | arr (items : List JValue) : JValue
  | obj (fields : List (Str × JValue)) : JValue

/-- A Python `dict` with string keys. -/
abbrev JObj := List (Str × JValue)

/-- `d.get(k)`. -/
def dget (o : JObj) (k : Str) : Option JValue := (o.find? (fun p => p.1 == k)).map (·.2)

/-- `k in d`. -/
def dhas (o : JObj) (k : Str) : Bool := o.any (fun p => p.1 == k)

/-- `d[k] = v`: update in place when the key exists, else append. -/
def dset (o : JObj) (k : Str) (v : JValue) : JObj :=
  if dhas o k then o.map (fun p => if p.1 == k then (k, v) else p) else o ++ [(k, v)]

/-! ## `_clean_suggestion_text` from `llm_client.py`

The four `re.sub` steps are embedded as deterministic scanners; each pattern
commits greedily and no pattern here requires backtracking (alternatives and
optional pieces never overlap what follows them). -/

/-- The literal `风险点`. -/
def riskPointLit : Str := "风险点".toList

/-- An optional alternation `(?:a|b)?` at the head of the input. -/
def dropAlt (opts : List Str) (s : Str) : Str :=
  match opts.find? (fun o => strStarts o s) with
  | some o => s.drop o.length
  | none => s

/-- First step: `re.sub(r"^\s*(?:针对|关于)?\s*风险点\s*[:：#\-]?\s*\d*\s*", "", s)`. -/
def cleanStep1 (s : Str) : Str :=
  let t1 := s.dropWhile Char.isWhitespace
  let t2 := dropAlt ["针对".toList, "关于".toList] t1
  let t3 := t2.dropWhile Char.isWhitespace
  if strStarts riskPointLit t3 then
    let t4 := t3.drop riskPointLit.length
    let t5 := t4.dropWhile Char.isWhitespace
    let t6 := match t5 with
      | c :: r => if c = ':' ∨ c = '：' ∨ c = '#' ∨ c = '-' then r else t5
      | [] => []
    let t7 := t6.dropWhile Char.isWhitespace
    let t8 := t7.dropWhile Char.isDigit
    t8.dropWhile Char.isWhitespace
  else s

/-- The tail `\s*[:：]?\s*` of the second pattern. -/
def dropColonWS (s : Str) : Str :=
  match s.dropWhile Char.isWhitespace with
  | c :: r => if c = ':' ∨ c = '：' then r.dropWhile Char.isWhitespace else c :: r
  | [] => []

theorem dropColonWS_length_le (s : Str) : (dropColonWS s).length ≤ s.length := by
  have h1 := (List.dropWhile_sublist (l := s) Char.isWhitespace).length_le
  unfold dropColonWS
  cases hd : s.dropWhile Char.isWhitespace with
  | nil => simp
  | cons c r =>
    rw [hd] at h1
    simp only [List.length_cons] at h1
    dsimp only
    by_cases hc : c = ':' ∨ c = '：'
    · rw [if_pos hc]
      have h2 := (List.dropWhile_sublist (l := r) Char.isWhitespace).length_le
      omega
    · rw [if_neg hc]
      simp only [List.length_cons]
      omega

theorem strStarts_length {n h : Str} (hs : strStarts n h = true) : n.length ≤ h.length := by
  induction n generalizing h with
  | nil => simp
  | cons a as ih =>
    cases h with
    | nil => simp [strStarts] at hs
    | cons b bs =>
      simp only [strStarts, Bool.and_eq_true] at hs
      simp only [List.length_cons]
      exact Nat.succ_le_succ (ih hs.2)

theorem cleanStep2_dec (c : Char) (rest : Str) :
    (dropColonWS ((c :: rest).drop riskPointLit.length)).length < (c :: rest).length := by
  have h3 := dropColonWS_length_le ((c :: rest).drop riskPointLit.length)
  have h4 : ((c :: rest).drop riskPointLit.length).length =
      (c :: rest).length - riskPointLit.length := List.length_drop _ _
  have h5 : riskPointLit.length = 3 := by decide
  simp only [List.length_cons] at *
  omega

/-- Second step: `re.sub(r"风险点\s*[:：]?\s*", "", s)`, scanning left to right.
The fuel argument only makes the recursion structural; every consumed unit of
fuel removes at least one character, so `s.length` fuel always suffices
(`cleanStep2Go_congr`). -/
def cleanStep2Go : Nat → Str → Str
  | 0, s => s
  | _ + 1, [] => []
  | fuel + 1, c :: rest =>
    if strStarts riskPointLit (c :: rest) then
      cleanStep2Go fuel (dropColonWS ((c :: rest).drop riskPointLit.length))
    else c :: cleanStep2Go fuel rest

/-- Second step of `_clean_suggestion_text`. -/
def cleanStep2 (s : Str) : Str := cleanStep2Go s.length s

theorem cleanStep2Go_congr : ∀ {f₁ f₂ : Nat} (s : Str), s.length ≤ f₁ → s.length ≤ f₂ →
    cleanStep2Go f₁ s = cleanStep2Go f₂ s := by
  intro f₁
  induction f₁ with
  | zero =>
    intro f₂ s h₁ _
    have hs : s = [] := List.length_eq_zero.mp (Nat.le_zero.mp h₁)
    subst hs
    cases f₂ <;> rfl
  | succ f ih =>
    intro f₂ s h₁ h₂
    cases s with
    | nil => cases f₂ <;> rfl
    | cons c rest =>
      cases f₂ with
      | zero => simp at h₂
      | succ f₂' =>
        simp only [cleanStep2Go]
        by_cases hm : strStarts riskPointLit (c :: rest)
        · rw [if_pos hm, if_pos hm]
          have hd := cleanStep2_dec c rest
          exact ih _ (by omega) (by omega)
        · rw [if_neg hm, if_neg hm]
          simp only [List.length_cons] at h₁ h₂
          exact congrArg (List.cons c) (@ih f₂' rest (by omega) (by omega))

/-- Python `\w` on the character classes this codebase sees: ASCII alphanumerics,
underscore, and CJK ideographs. -/
def isWordChar (c : Char) : Bool := c.isAlphanum || c == '_' || isHan c

/-- `\d+\b` starting at `s`: all leading digits, then a word boundary. -/
def step3TryDigits (s : Str) : Option Str :=
  if (s.takeWhile Char.isDigit).isEmpty then none
  else
    match s.drop (s.takeWhile Char.isDigit).length with
    | [] => some []
    | c :: r => if isWordChar c then none else some (c :: r)

/-- `RISK[-_ ]?\d+\b` (case-insensitive) at the head of `s`; returns the rest. -/
def step3Match (s : Str) : Option Str :=
  if (s.take 4).map Char.toLower = "risk".toList then
    match s.drop 4 with
    | c :: r =>
      if c.isDigit then step3TryDigits (s.drop 4)
      else if c = '-' ∨ c = '_' ∨ c = ' ' then step3TryDigits r
      else none
    | [] => none
  else none

theorem step3TryDigits_length {s rem : Str} (h : step3TryDigits s = some rem) :
    rem.length < s.length := by
  unfold step3TryDigits at h
  by_cases he : (s.takeWhile Char.isDigit).isEmpty
  · rw [if_pos he] at h; cases h
  · rw [if_neg he] at h
    have hlen : 0 < (s.takeWhile Char.isDigit).length := by
      cases ht : s.takeWhile Char.isDigit with
      | nil => rw [ht] at he; simp at he
      | cons a l => simp
    have hle : (s.takeWhile Char.isDigit).length ≤ s.length :=
      (List.takeWhile_sublist _).length_le
    have hdrop : (s.drop (s.takeWhile Char.isDigit).length).length
        = s.length - (s.takeWhile Char.isDigit).length := List.length_drop _ _
    cases hr : s.drop (s.takeWhile Char.isDigit).length with
    | nil =>
      rw [hr] at h
      dsimp only at h
      simp only [Option.some.injEq] at h
      subst h
      simp only [List.length_nil]
      omega
    | cons c r =>
      rw [hr] at h
      dsimp only at h
      by_cases hw : isWordChar c
      · rw [if_pos hw] at h; cases h
      · rw [if_neg hw] at h
        simp only [Option.some.injEq] at h
        subst h
        rw [hr] at hdrop
        simp only [List.length_cons] at hdrop ⊢
        omega

theorem step3Match_length {s rem : Str} (h : step3Match s = some rem) :
    rem.length < s.length := by
  unfold step3Match at h
  by_cases h4 : (s.take 4).map Char.toLower = "risk".toList
  · rw [if_pos h4] at h
    have hlen4 : 4 ≤ s.length := by
      have hl := congrArg List.length h4
      rw [List.length_map, List.length_take] at hl
      have hr4 : ("risk".toList).length = 4 := by decide
      omega
    cases hd : s.drop 4 with
    | nil => rw [hd] at h; cases h
    | cons c r =>
      rw [hd] at h
      dsimp only at h
      have hr : r.length = s.length - 4 - 1 := by
        have hl := List.length_drop 4 s
        rw [hd] at hl
        simp only [List.length_cons] at hl
        omega
      by_cases hc : c.isDigit
      · rw [if_pos hc] at h
        have hlt := step3TryDigits_length h
        simp only [List.length_cons] at hlt
        omega
      · rw [if_neg hc] at h
        by_cases hsep : c = '-' ∨ c = '_' ∨ c = ' '
        · rw [if_pos hsep] at h
          have hlt := step3TryDigits_length h
          omega
        · rw [if_neg hsep] at h; cases h
  · rw [if_neg h4] at h; cases h

/-- Third step: `re.sub(r"\bRISK[-_ ]?\d+\b", "", s, flags=re.IGNORECASE)`;
`prevWord` records whether the previous character was a word character.  As
above, the fuel only makes the recursion structural (`cleanStep3Go_congr`). -/
def cleanStep3Go : Nat → Bool → Str → Str
  | 0, _, s => s
  | _ + 1, _, [] => []
  | fuel + 1, prevWord, c :: rest =>
    if prevWord then c :: cleanStep3Go fuel (isWordChar c) rest
    else
      match step3Match (c :: rest) with
      | some rem => cleanStep3Go fuel true rem
      | none => c :: cleanStep3Go fuel (isWordChar c) rest

/-- Third step of `_clean_suggestion_text`. -/
def cleanStep3 (s : Str) : Str := cleanStep3Go s.length false s

theorem cleanStep3Go_congr : ∀ {f₁ f₂ : Nat} (w : Bool) (s : Str),
    s.length ≤ f₁ → s.length ≤ f₂ → cleanStep3Go f₁ w s = cleanStep3Go f₂ w s := by
  intro f₁
  induction f₁ with
  | zero =>
    intro f₂ w s h₁ _
    have hs : s = [] := List.length_eq_zero.mp (Nat.le_zero.mp h₁)
    subst hs
    cases f₂ <;> rfl
  | succ f ih =>
    intro f₂ w s h₁ h₂
    cases s with
    | nil => cases f₂ <;> rfl
    | cons c rest =>
      cases f₂ with
      | zero => simp at h₂
      | succ f₂' =>
        simp only [cleanStep3Go]
        simp only [List.length_cons] at h₁ h₂
        cases w with
        | true => exact congrArg (List.cons c) (@ih f₂' (isWordChar c) rest (by omega) (by omega))
        | false =>
          cases hm : step3Match (c :: rest) with
          | some rem =>
            have := step3Match_length hm
            simp only [List.length_cons] at this
            exact ih _ rem (by omega) (by omega)
          | none => exact congrArg (List.cons c) (@ih f₂' (isWordChar c) rest (by omega) (by omega))

theorem cleanStep4_dec {c : Char} (rest : Str) (hw : c.isWhitespace) :
    ((c :: rest).dropWhile Char.isWhitespace).length < (c :: rest).length := by
  have heq : (c :: rest).dropWhile Char.isWhitespace = rest.dropWhile Char.isWhitespace := by
    simp [List.dropWhile, hw]
  rw [heq]
  have hle := (List.dropWhile_sublist (l := rest) Char.isWhitespace).length_le
  simp only [List.length_cons]
  omega

/-- Fourth step: `re.sub(r"\s{2,}", " ", s)`; fuel as above (`cleanStep4Go_congr`). -/
def cleanStep4Go : Nat → Str → Str
  | 0, s => s
  | _ + 1, [] => []
  | fuel + 1, c :: rest =>
    if c.isWhitespace then
      if 2 ≤ ((c :: rest).takeWhile Char.isWhitespace).length then
        ' ' :: cleanStep4Go fuel ((c :: rest).dropWhile Char.isWhitespace)
      else c :: cleanStep4Go fuel rest
    else c :: cleanStep4Go fuel rest

/-- Fourth step of `_clean_suggestion_text`. -/
def cleanStep4 (s : Str) : Str := cleanStep4Go s.length s

theorem cleanStep4Go_congr : ∀ {f₁ f₂ : Nat} (s : Str), s.length ≤ f₁ → s.length ≤ f₂ →
    cleanStep4Go f₁ s = cleanStep4Go f₂ s := by
  intro f₁
  induction f₁ with
  | zero =>
    intro f₂ s h₁ _
    have hs : s = [] := List.length_eq_zero.mp (Nat.le_zero.mp h₁)
    subst hs
    cases f₂ <;> rfl
  | succ f ih =>
    intro f₂ s h₁ h₂
    cases s with
    | nil => cases f₂ <;> rfl
    | cons c rest =>
      cases f₂ with
      | zero => simp at h₂
      | succ f₂' =>
        simp only [cleanStep4Go]
        simp only [List.length_cons] at h₁ h₂
        by_cases hw : c.isWhitespace
        · rw [if_pos hw, if_pos hw]
          have hd := cleanStep4_dec rest hw
          simp only [List.length_cons] at hd
          by_cases h2 : 2 ≤ ((c :: rest).takeWhile Char.isWhitespace).length
          · rw [if_pos h2, if_pos h2]
            exact congrArg (List.cons ' ') (@ih f₂' _ (by omega) (by omega))
          · rw [if_neg h2, if_neg h2]
            exact congrArg (List.cons c) (@ih f₂' rest (by omega) (by omega))
        · rw [if_neg hw, if_neg hw]
          exact congrArg (List.cons c) (@ih f₂' rest (by omega) (by omega))

/-- Python `str.strip(chars)`: drop characters of `cs` from both ends. -/
def pyStripChars (cs : List Char) (s : Str) : Str :=
  ((s.dropWhile cs.contains).reverse.dropWhile cs.contains).reverse

/-- The character set of the final `strip` in `_clean_suggestion_text`. -/
def stripCharSet : List Char := " ：:，,；;。".toList

/-- `_clean_suggestion_text` from `llm_client.py`. -/
def cleanSuggestionText (text : Str) : Str :=
  let s := pyStrip text
  if s.isEmpty then []
  else pyStripChars stripCharSet (cleanStep4 (cleanStep3 (cleanStep2 (cleanStep1 s))))

/-! ## `_enforce_risk_suggestion_split` from `llm_client.py` -/

/-- The `risk_keys` tuple. -/
def riskKeys : List Str := [riskPointLit, "risks".toList, "risk_points".toList]

/-- The `improve_keys` tuple. -/
def improveKeys : List Str :=
  ["改进措施".toList, "改进建议".toList, "improvements".toList, "improvement".toList,
   "improvement_suggestions".toList, "suggestions".toList, "recommendations".toList]

/-- The `suggestion_keys` tuple. -/
def suggestionKeys : List Str :=
  ["suggestion".toList, "advice".toList, "fix".toList, "solution".toList,
   "建议".toList, "修改建议".toList]

/-- `_first_non_empty_text`: the first stripped non-empty string among the values. -/
def firstNonEmptyText (values : List (Option JValue)) : Str :=
  match values with
  | [] => []
  | some (.str s) :: rest => if (pyStrip s).isEmpty then firstNonEmptyText rest else pyStrip s
  | _ :: rest => firstNonEmptyText rest

/-- The title `f"建议{idx}"`. -/
def mkTitle (idx : Nat) : Str := "建议".toList ++ (toString idx).toList

/-- `_normalize_improvement_item` from `llm_client.py`. -/
def normalizeImprovementItem (item : JValue) (idx : Nat) : Option JObj :=
  match item with
  | .str s =>
    let sg := cleanSuggestionText s
    if sg.isEmpty then none
    else some [("title".toList, .str (mkTitle idx)), ("problem".toList, .str []),
               ("suggestion".toList, .str sg)]
  | .obj o =>
    let sg := cleanSuggestionText (firstNonEmptyText (suggestionKeys.map (fun k => dget o k)))
    if sg.isEmpty then none
    else some [("title".toList, .str (mkTitle idx)), ("problem".toList, .str []),
               ("suggestion".toList, .str sg)]
  | _ => none

/-- The per-risk-item body of `_process_node`: blank out every suggestion-like
field present, and extract the cleaned text that was moved (if non-empty). -/
def splitRiskItem (item : JValue) : JValue × Option Str :=
  match item with
  | .obj o =>
    let moved := cleanSuggestionText (firstNonEmptyText (suggestionKeys.map (fun k => dget o k)))
    let cleared := suggestionKeys.foldl (fun acc k =>
      if dhas acc k then dset acc k (.str []) else acc) o
    (.obj cleared, if moved.isEmpty then none else some moved)
  | x => (x, none)

/-- The `suggestion` field of a normalized improvement entry. -/
def entrySuggestion (e : JObj) : Str :=
  match dget e "suggestion".toList with
  | some (.str s) => s
  | _ => []

/-- The dedup key `str(normalized.get("suggestion", "")).strip().lower()`. -/
def entryKey (e : JObj) : Str := pyLower (pyStrip (entrySuggestion e))

/-- `normalized["title"] = f"建议{idx}"`. -/
def setTitle (e : JObj) (idx : Nat) : JObj := dset e "title".toList (.str (mkTitle idx))

/-- The ordered, de-duplicated improvement construction loop of `_process_node`. -/
def buildImprovementsGo : List JValue → List Str → Nat → List JObj → List JObj
  | [], _, _, acc => acc.reverse
  | r :: rest, seen, idx, acc =>
    match normalizeImprovementItem r idx with
    | none => buildImprovementsGo rest seen idx acc
    | some e =>
      let key := entryKey e
      if key.isEmpty || seen.contains key then buildImprovementsGo rest seen idx acc
      else buildImprovementsGo rest (key :: seen) (idx + 1) (setTitle e idx :: acc)

/-- The improvement list built from the raw collected items. -/
def buildImprovements (raw : List JValue) : List JObj := buildImprovementsGo raw [] 1 []

/-- The first risk key whose value is a list (`risk_key_found`). -/
def nodeRiskKey (node : JObj) : Option Str :=
  riskKeys.find? (fun k => match dget node k with | some (.arr _) => true | _ => false)

/-- The risk list under the found risk key. -/
def nodeRisks (node : JObj) : List JValue :=
  match nodeRiskKey node with
  | some k => match dget node k with | some (.arr l) => l | _ => []
  | none => []

/-- The non-empty cleaned suggestion texts moved off the risk items (`moved_suggestions`). -/
def nodeMoved (node : JObj) : List Str :=
  (nodeRisks node).filterMap (fun i => (splitRiskItem i).2)

/-- The risk list after blanking suggestion-like fields (`normalized_risks`). -/
def nodeNormalizedRisks (node : JObj) : List JValue :=
  (nodeRisks node).map (fun i => (splitRiskItem i).1)

/-- Install the normalized risk list under the found key and the mirror keys. -/
def riskMirror (node : JObj) : JObj :=
  match nodeRiskKey node with
  | some k =>
    let v := JValue.arr (nodeNormalizedRisks node)
    let a := dset node k v
    let b := if k ≠ riskPointLit then dset a riskPointLit v else a
    if k ≠ "risks".toList then dset b "risks".toList v else b
  | none => node

/-- `improvement_raw`: every list value under an improvement key, then the moved texts. -/
def nodeImprovementRaw (node : JObj) : List JValue :=
  (improveKeys.foldl (fun acc k =>
      match dget (riskMirror node) k with
      | some (.arr l) => acc ++ l
      | _ => acc) [])
    ++ (nodeMoved node).map JValue.str

/-- `_process_node` from `_enforce_risk_suggestion_split`. -/
def processNode (node : JObj) : JObj :=
  let ordered := buildImprovements (nodeImprovementRaw node)
  let out2 := dset (riskMirror node) "改进措施".toList (.arr (ordered.map .obj))
  dset out2 "improvements".toList (.arr (ordered.map .obj))

/-- The nested result keys processed after the root. -/
def nestedKeys : List Str := ["result".toList, "review".toList, "data".toList]

/-- `_enforce_risk_suggestion_split` from `llm_client.py`. -/
def enforceRiskSuggestionSplit (data : JValue) : JValue :=
  match data with
  | .obj o =>
    let root := processNode o
    .obj (nestedKeys.foldl (fun acc k =>
      match dget acc k with
      | some (.obj n) => dset acc k (.obj (processNode n))
      | _ => acc) root)
  | x => x

/-! ## `_fit_messages_to_context` from `llm_provider.py`

`LocalVLLMConfig.from_env` guarantees `context_window ≥ 128`,
`min_output_tokens ≥ 8`, `context_safety_margin ≥ 8` and `max_tokens ≥ 16`,
but places no order between `min_output_tokens` and `max_tokens`; the
structure below carries exactly the four fields the fitter reads. -/

/-- The fields of `LocalVLLMConfig` consumed by `_fit_messages_to_context`. -/
structure VLLMCfg where
  context_window : Int
  min_output_tokens : Int
  context_safety_margin : Int
  max_tokens : Int
deriving Repr, DecidableEq

/-- One chat message (`{"role": ..., "content": ...}`). -/
structure ChatMsg where
  role : Str
  content : Str
deriving Repr, DecidableEq

/-- The literal truncation marker of `_truncate_for_prompt`. -/
def truncMarker : Str := "\n\n...[TRUNCATED_FOR_SPEED]...\n\n".toList

/-- The last `n` characters, Python `text[-n:]` for `n > 0`. -/
def takeLast (s : Str) (n : Nat) : Str := s.drop (s.length - n)

/-- `_truncate_for_prompt` from `llm_client.py`; `int(max_chars * 0.75)` is the
exact float product for these magnitudes, i.e. `⌊3·maxChars/4⌋`. -/
def truncateForPrompt (text : Str) (maxChars : Int) : Str :=
  if maxChars ≤ 0 ∨ (text.length : Int) ≤ maxChars then text
  else
    let headN : Int := maxChars * 3 / 4
    let tailN : Int := max 0 (maxChars - headN - (truncMarker.length : Int))
    if 0 < tailN then text.take headN.toNat ++ truncMarker ++ takeLast text tailN.toNat
    else text.take maxChars.toNat

/-- The structural-punctuation class `[,:;{}\[\]\n]` of `_estimate_text_tokens`. -/
def estPunctChars : List Char :=
  [',', ':', ';', Char.ofNat 123, Char.ofNat 125, '[', ']', '\n']

/-- `_estimate_text_tokens`. -/
def estTextTokens (text : Str) : Int :=
  let src := pyStrip text
  if src.isEmpty then 0
  else
    let ascii : Int := src.countP (fun c => c.toNat < 128)
    let nonAscii : Int := (src.length : Int) - ascii
    let punct : Int := src.countP (fun c => estPunctChars.contains c)
    max 1 (nonAscii + (ascii + 3) / 4 + punct)

/-- `_estimate_messages_tokens`. -/
def estMessagesTokens (msgs : List ChatMsg) : Int :=
  6 + (msgs.map (fun m => 8 + estTextTokens m.content)).sum

/-- The per-user-message truncation body of the fitting loop.  The float
products `keep_ratio` and `len(content) * keep_ratio * 0.9` are modelled with
exact rationals; they only choose a truncation length and feed no branch that
any theorem below depends on. -/
def truncUserMsg (m : ChatMsg) (over : Int) : ChatMsg × Bool :=
  if m.content.isEmpty then (m, false)
  else
    let ct := estTextTokens m.content
    if ct ≤ 48 then (m, false)
    else
      let keepRatio : ℚ := max (35 / 100 : ℚ) (min (95 / 100 : ℚ) ((ct - over : ℚ) / (max ct 1 : Int)))
      let nextChars : Int := max 80 ⌊(m.content.length : ℚ) * keepRatio * (9 / 10 : ℚ)⌋
      let nextContent := truncateForPrompt m.content nextChars
      if nextContent = m.content then (m, false)
      else ({ m with content := nextContent }, true)

/-- One pass of the `for idx in user_indexes` truncation loop (each index only
rewrites its own entry, so the pass is an independent per-element map). -/
def truncPass (over : Int) : List ChatMsg → List ChatMsg × Bool
  | [] => ([], false)
  | m :: rest =>
    let hd := if m.role == "user".toList then truncUserMsg m over else (m, false)
    let tl := truncPass over rest
    (hd.1 :: tl.1, hd.2 || tl.2)

/-- The `for _ in range(8)` fitting loop; fuel counts remaining iterations and
running out of fuel is the loop falling through to the final best-effort
return. -/
def fitLoop (cfg : VLLMCfg) : Nat → List ChatMsg → Int → List ChatMsg × Int
  | 0, fitted, maxTokens => (fitted, max 8 (min maxTokens cfg.max_tokens))
  | fuel + 1, fitted, maxTokens =>
    let inputBudget := cfg.context_window - maxTokens - cfg.context_safety_margin
    let estimate := estMessagesTokens fitted
    if estimate ≤ inputBudget then (fitted, maxTokens)
    else if cfg.min_output_tokens < maxTokens then
      fitLoop cfg fuel fitted (max cfg.min_output_tokens (maxTokens - 8))
    else if !(fitted.any (fun m => m.role == "user".toList)) then
      (fitted, max 8 (min maxTokens cfg.max_tokens))
    else
      let step := truncPass (estimate - inputBudget) fitted
      if step.2 then fitLoop cfg fuel step.1 maxTokens
      else (fitted, max 8 (min maxTokens cfg.max_tokens))

/-- `_fit_messages_to_context` from `llm_provider.py`. -/
def fitMessagesToContext (cfg : VLLMCfg) (messages : List ChatMsg) (desired : Int) :
    List ChatMsg × Int :=
  let maxTokens0 := min (max 8 desired) (max 8 (cfg.context_window.fdiv 3))
  fitLoop cfg 8 messages (max cfg.min_output_tokens maxTokens0)

/-! ## The `LocalVLLMClient` circuit breaker from `llm_provider.py`

The HTTP transport and the model are oracles: a health probe yields either a
status code or a raised exception, and each chat attempt yields either raised
exception or response content together with the outcome of the JSON salvage
(`_extract_json_object`, an external step whose failures surface as exception
text).  Exceptions are modelled by what `_extract_status_code` reads off them:
integer status attributes and the exception text `str(exc)`.  All marking
happens at one instant `now`. -/

/-- First index at which `needle` occurs in `hay`, Python `str.find`. -/
def strFindGo (hay needle : Str) (i : Nat) : Option Nat :=
  match hay with
  | [] => if needle.isEmpty then some i else none
  | _ :: rest => if strStarts needle hay then some i else strFindGo rest needle (i + 1)

/-- Python `hay.find(needle)` as an `Option`. -/
def strFind (hay needle : Str) : Option Nat := strFindGo hay needle 0

/-- What `_extract_status_code` can read off an exception. -/
structure ExcInfo where
  statusAttr : Option Int
  respStatus : Option Int
  msg : Str
deriving Repr, DecidableEq

/-- An exception that carries only a message (every exception the client itself
raises has this shape). -/
def mkExc (msg : Str) : ExcInfo := ⟨none, none, msg⟩

/-- The trailing text scan of `_extract_status_code`. -/
def scanStatusCodes (text : Str) : Option Int :=
  if strHas text "502".toList then some 502
  else if strHas text "503".toList then some 503
  else if strHas text "504".toList then some 504
  else if strHas text "500".toList then some 500
  else none

/-- `_extract_status_code`. -/
def extractStatusCode (e : ExcInfo) : Option Int :=
  match e.statusAttr with
  | some v => some v
  | none =>
    match e.respStatus with
    | some v => some v
    | none => scanStatusCodes e.msg

/-- The gateway-text clause of `_is_server_side_failure`. -/
def gatewayText (e : ExcInfo) : Bool :=
  let text := pyLower e.msg
  strHas text "bad gateway".toList || (strHas text "gateway".toList && strHas text "502".toList)

/-- `LocalVLLMClient._is_server_side_failure`. -/
def isServerSideFailure (e : ExcInfo) : Bool :=
  match extractStatusCode e with
  | some s => decide (500 ≤ s) || gatewayText e
  | none => gatewayText e

/-- The breaker-relevant configuration (`healthcheck_enabled`,
`unhealthy_cooldown_s`). -/
structure BreakerCfg where
  healthcheck_enabled : Bool
  unhealthy_cooldown : ℚ
deriving Repr, DecidableEq

/-- Outcome of the `requests.get` health probe. -/
inductive ProbeOutcome where
  | status (c : Int)
  | exc (e : ExcInfo)
deriving Repr, DecidableEq

/-- Integer rendering for the f-string messages. -/
def intToStr (n : Int) : Str := (toString n).toList

/-- Result of a preflight: the raised exception if any, the new
`_unhealthy_until` instant, and how many network requests were made. -/
structure PreflightRes where
  outcome : Except ExcInfo Unit
  unhealthyUntil : ℚ
  netCalls : Nat

/-- The `except` handler of `_preflight_health`: server-side signatures and the
already-marked `health failed` error re-raise as they are, everything else
marks the breaker and re-raises wrapped. -/
def probeHandle (now cooldown stOld : ℚ) (e : ExcInfo) : Except ExcInfo Unit × ℚ :=
  if isServerSideFailure e || strHas e.msg "health failed".toList then (.error e, stOld)
  else (.error (mkExc ("local vllm health probe failed: ".toList ++ e.msg)), now + cooldown)

/-- `LocalVLLMClient._preflight_health`. -/
def preflightHealth (cfg : BreakerCfg) (st now : ℚ) (probe : ProbeOutcome) : PreflightRes :=
  if now < st then
    ⟨.error (mkExc ("local vllm in cooldown (".toList ++ intToStr ⌊st - now⌋ ++
      "s remaining)".toList)), st, 0⟩
  else if !cfg.healthcheck_enabled then ⟨.ok (), st, 0⟩
  else
    match probe with
    | .status c =>
      if 500 ≤ c then
        let e1 := mkExc ("local vllm health failed: status=".toList ++ intToStr c)
        let h := probeHandle now cfg.unhealthy_cooldown (now + cfg.unhealthy_cooldown) e1
        ⟨h.1, h.2, 1⟩
      else if 400 ≤ c then
        let e2 := mkExc ("local vllm health unexpected status=".toList ++ intToStr c)
        let h := probeHandle now cfg.unhealthy_cooldown st e2
        ⟨h.1, h.2, 1⟩
      else ⟨.ok (), st, 1⟩
    | .exc e =>
      let h := probeHandle now cfg.unhealthy_cooldown st e
      ⟨h.1, h.2, 1⟩

/-- `_strip_think_content`. -/
def stripThink (text : Str) : Str :=
  let src := pyStrip text
  if src.isEmpty then []
  else if strStarts "<think>".toList src then
    match strFind src "</think>".toList with
    | some i => pyStrip (src.drop (i + ("</think>".toList).length))
    | none => []
  else src

/-- The transport/model oracle for one chat attempt: either the call raised, or
it returned content whose JSON salvage produced a value or an error text. -/
inductive AttemptResult where
  | ok (raw : Str) (parsed : Except Str JValue)
  | raised (e : ExcInfo)

/-- The body of one attempt inside `_chat_json`: empty post-think content is a
`ValueError("empty model response")`, a salvage failure is an exception with
that text. -/
def runAttempt (a : AttemptResult) : Except ExcInfo JValue :=
  match a with
  | .raised e => .error e
  | .ok raw parsed =>
    let content := stripThink raw
    if content.isEmpty then .error (mkExc "empty model response".toList)
    else
      match parsed with
      | .ok v => .ok v
      | .error m => .error (mkExc m)

/-- Result of `_chat_json`: outcome, new `_unhealthy_until`, network requests. -/
structure ChatRes where
  outcome : Except ExcInfo JValue
  unhealthyUntil : ℚ
  netCalls : Nat

/-- `LocalVLLMClient._chat_json`. -/
def chatJson (cfg : BreakerCfg) (st now : ℚ) (probe : ProbeOutcome)
    (a1 a2 : AttemptResult) : ChatRes :=
  let pf := preflightHealth cfg st now probe
  match pf.outcome with
  | .error e => ⟨.error e, pf.unhealthyUntil, pf.netCalls⟩
  | .ok _ =>
    match runAttempt a1 with
    | .ok v => ⟨.ok v, pf.unhealthyUntil, pf.netCalls + 1⟩
    | .error e1 =>
      if isServerSideFailure e1 then
        ⟨.error (mkExc ("local vllm json request failed fast: ".toList ++ e1.msg)),
         now + cfg.unhealthy_cooldown, pf.netCalls + 1⟩
      else
        match runAttempt a2 with
        | .ok v => ⟨.ok v, pf.unhealthyUntil, pf.netCalls + 2⟩
        | .error e2 =>
          ⟨.error (mkExc ("local vllm json request failed: first=".toList ++ e1.msg ++
              "; second=".toList ++ e2.msg)),
           if isServerSideFailure e2 then now + cfg.unhealthy_cooldown else pf.unhealthyUntil,
           pf.netCalls + 2⟩

/-! ## Pure helpers of `main.py` and `core_engine/result_contract.py` -/

/-- Python `str.upper()` (ASCII). -/
def pyUpper (s : Str) : Str := s.map Char.toUpper

/-- `d.update(patch)`. -/
def dupdate (o : JObj) (patch : JObj) : JObj := patch.foldl (fun acc p => dset acc p.1 p.2) o

/-- `stamp_status_to_cn` (statuses are detector-produced strings). -/
def stampStatusToCn (status : Option JValue) : Str :=
  let v := match status with | some (.str s) => pyUpper (pyStrip s) | _ => []
  if v = "YES".toList then "是".toList
  else if v = "NO".toList then "否".toList
  else if v = "UNCERTAIN".toList then "不确定".toList
  else "未提及".toList

/-- `merge_stamp_result` (both arguments are dicts at every call site, so
`normalize_result_json` is the identity copy). -/
def mergeStampResult (result : JObj) (stamp : Option JObj) : JObj :=
  match stamp with
  | none => result
  | some srj =>
    let r := dupdate result srj
    if dhas srj "stamp_status".toList then
      dset r "是否盖章".toList (.str (stampStatusToCn (dget srj "stamp_status".toList)))
    else r

/-- `build_error_result`. -/
def buildErrorResult (error : Str) (mode : Option Str) (meta : Option JObj)
    (stamp : Option JObj) : JObj :=
  let b0 : JObj := [("error".toList, .str error)]
  let b1 := match mode with | some m => dset b0 "mode".toList (.str m) | none => b0
  let b2 := match meta with | some m => dset b1 "meta".toList (.obj m) | none => b1
  mergeStampResult b2 stamp

/-- The keyword list inside `_fast_slice_text`. -/
def fastSliceKeywords : List Str :=
  ["合同".toList, "协议".toList, "甲方".toList, "乙方".toList, "金额".toList,
   "价款".toList, "付款".toList, "支付".toList, "发票".toList, "期限".toList,
   "交付".toList, "验收".toList, "违约".toList, "赔偿".toList, "解除".toList,
   "终止".toList, "保密".toList, "知识产权".toList, "争议".toList, "管辖".toList,
   "仲裁".toList, "法院".toList]

/-- `_fast_slice_text`: keep the first 80 lines plus any line within 3 lines of
a domain keyword, with line/char caps. -/
def fastSliceText (maxChars maxLines : Int) (text : Str) : Str × JObj :=
  let lines := pySplitlines text
  let n := lines.length
  let hits := lines.map (fun l => fastSliceKeywords.any (fun k => strHas l k))
  let keepAt := fun (j : Nat) =>
    decide (j < 80) ||
      (List.range n).any (fun i => hits.getD i false && decide (j ≤ i + 3) && decide (i ≤ j + 3))
  let picked0 := ((List.range n).filter keepAt).map (fun i => lines.getD i [])
  let picked1 := if picked0.length < 40 then lines.take maxLines.toNat else picked0
  let picked := if maxLines < (picked1.length : Int) then picked1.take maxLines.toNat else picked1
  let sliced0 := List.intercalate ['\n'] picked
  let sliced := if maxChars < (sliced0.length : Int) then sliced0.take maxChars.toNat else sliced0
  (sliced,
   [("mode".toList, .str "fast".toList),
    ("orig_chars".toList, .num (text.length : ℚ)),
    ("sliced_chars".toList, .num (sliced.length : ℚ)),
    ("orig_lines".toList, .num (n : ℚ)),
    ("sliced_lines".toList, .num (picked.length : ℚ))])

/-- `_clip_text_for_llm` (the `int(max_chars * head_ratio)` float product is
modelled by the exact floor). -/
def clipTextForLlm (maxChars : Int) (headRatioRaw : ℚ) (text : Str) : Str × JObj :=
  if maxChars ≤ 0 ∨ (text.length : Int) ≤ maxChars then
    (text, [("llm_input_chars".toList, .num (text.length : ℚ)),
            ("llm_clipped".toList, .bool false)])
  else
    let headRatio := min (95 / 100 : ℚ) (max (1 / 2 : ℚ) headRatioRaw)
    let headChars : Int := ⌊(maxChars : ℚ) * headRatio⌋
    let tailChars : Int := max 0 (maxChars - headChars - (truncMarker.length : Int))
    let clipped :=
      if 0 < tailChars then text.take headChars.toNat ++ truncMarker ++ takeLast text tailChars.toNat
      else text.take maxChars.toNat
    (clipped, [("llm_input_chars".toList, .num (clipped.length : ℚ)),
               ("llm_clipped".toList, .bool true),
               ("llm_orig_chars".toList, .num (text.length : ℚ))])

/-- `_clip_markdown_for_callback` (`maxCharsEnv` is the optional
`WORKER_RESULT_MARKDOWN_MAX_CHARS` override). -/
def clipMarkdownForCallback (maxCharsEnv : Option Int) (text : Str) (isError : Bool) : Str :=
  if text.isEmpty then []
  else
    let maxChars := maxCharsEnv.getD (if isError then 20000 else 120000)
    if maxChars ≤ 0 then text
    else if (text.length : Int) ≤ maxChars then text
    else text.take maxChars.toNat

/-- `_OCR_HARD_BLOCK_TERMS`: the first components of `_OCR_POST_REPLACEMENTS`. -/
def ocrHardBlockTerms : List Str :=
  ["跑口记者".toList, "微文题月".toList, "谷口微信".toList, "勾服".toList,
   "微文".toList, "密传".toList, "字传".toList]

/-- `re.search(r"(违约[参爹伞令]|[��])", src)` (both class members are the
same replacement character). -/
def suspiciousPatHit (s : Str) : Bool :=
  s.contains (Char.ofNat 0xFFFD) ||
    (List.range s.length).any (fun i =>
      match s.drop i with
      | '违' :: '约' :: e :: _ => e = '参' ∨ e = '爹' ∨ e = '伞' ∨ e = '令'
      | _ => false)

/-- `_should_run_llm_ocr_fix` with its two environment knobs made explicit. -/
def shouldRunLlmOcrFix (enabled : Bool) (minScore : ℚ) (text : Str) : Bool :=
  if !enabled then false
  else
    let src := pyStrip text
    if src.isEmpty then false
    else if (ocrQualityMetrics src).score < minScore then true
    else if ocrHardBlockTerms.any (fun bad => !bad.isEmpty && strHas src bad) then true
    else suspiciousPatHit src

/-- `unicodedata.category(ch).startswith("C")` on the character ranges OCR text
can contain: the `Cc` controls plus the common `Cf` format characters. -/
def pyCategoryC (c : Char) : Bool :=
  c.toNat < 32 || (127 ≤ c.toNat && c.toNat ≤ 159) || c.toNat = 0xAD ||
    (0x200B ≤ c.toNat && c.toNat ≤ 0x200F) || (0x202A ≤ c.toNat && c.toNat ≤ 0x202E) ||
    (0x2060 ≤ c.toNat && c.toNat ≤ 0x2064) || c.toNat = 0xFEFF

/-- The unknown-character test of `_ocr_zero_tolerance_guard`. -/
def isUnknownCharGuard (c : Char) : Bool :=
  c = Char.ofNat 0xFFFD ||
    (pyCategoryC c && !(c = '\n' ∨ c = '\t' ∨ c = '\r'))

/-- `_ocr_zero_tolerance_guard` with its environment knobs made explicit;
returns the `ok` verdict alongside the diagnostic dictionary. -/
def ocrZeroToleranceGuard (minScore : ℚ) (maxUnknown : Int) (text : Str) : Bool × JObj :=
  let src := pyStrip text
  let metrics := ocrQualityMetrics src
  let badTerms := ocrHardBlockTerms.filter (fun t => !t.isEmpty && strHas src t)
  let unknown : Int := src.countP isUnknownCharGuard
  let r1 : List Str := if metrics.score < minScore then ["low_ocr_score".toList] else []
  let r2 : List Str := if !badTerms.isEmpty then ["hard_block_terms".toList] else []
  let r3 : List Str := if maxUnknown < unknown then ["unknown_chars".toList] else []
  let ok := r1.isEmpty && r2.isEmpty && r3.isEmpty
  (ok,
   [("ok".toList, .bool ok),
    ("score".toList, .num metrics.score),
    ("min_score".toList, .num minScore),
    ("bad_terms".toList, .arr (badTerms.map .str)),
    ("unknown_char_count".toList, .num (unknown : ℚ)),
    ("max_unknown_chars".toList, .num (maxUnknown : ℚ)),
    ("reasons".toList, .arr ((r1 ++ r2 ++ r3).map .str))])

/-- `_is_cuda_failure`. -/
def isCudaFailure (errMsg : Str) : Bool :=
  let msg := pyLower errMsg
  ["cuda".toList, "cublas".toList, "cudnn".toList, "cufft".toList, "cusolver".toList,
   "out of memory".toList, "oom".toList, "illegal memory access".toList,
   "device-side assert".toList, "no kernel image".toList,
   "unspecified launch failure".toList, "access violation".toList,
   "0xc0000005".toList, "0xc0000409".toList, "code=3221225477".toList,
   "code=3221226505".toList].any (fun k => strHas msg k)

/-- `![alt](url)` at the head of the input (first pattern of `_strip_md_images`). -/
def matchMdImage1 (s : Str) : Option Str :=
  match s with
  | '!' :: '[' :: rest =>
    let alt := rest.takeWhile (fun c => c != ']')
    match rest.drop alt.length with
    | ']' :: '(' :: rest2 =>
      let url := rest2.takeWhile (fun c => c != ')')
      if url.isEmpty then none
      else
        match rest2.drop url.length with
        | ')' :: rem => some rem
        | _ => none
    | _ => none
  | _ => none

/-- `![alt][ref]` at the head of the input (second pattern of `_strip_md_images`). -/
def matchMdImage2 (s : Str) : Option Str :=
  match s with
  | '!' :: '[' :: rest =>
    let alt := rest.takeWhile (fun c => c != ']')
    match rest.drop alt.length with
    | ']' :: '[' :: rest2 =>
      let ref := rest2.takeWhile (fun c => c != ']')
      if ref.isEmpty then none
      else
        match rest2.drop ref.length with
        | ']' :: rem => some rem
        | _ => none
    | _ => none
  | _ => none

/-- Remove every match of `matcher`, scanning left to right; fuel as for the
cleaning scanners (every match consumes at least five characters). -/
def removeAllGo (matcher : Str → Option Str) : Nat → Str → Str
  | 0, s => s
  | _ + 1, [] => []
  | fuel + 1, c :: rest =>
    match matcher (c :: rest) with
    | some rem => removeAllGo matcher fuel rem
    | none => c :: removeAllGo matcher fuel rest

/-- `_strip_md_images`: the two image-pattern substitutions in order. -/
def stripMdImages (md : Str) : Str :=
  let pass1 := removeAllGo matchMdImage1 md.length md
  removeAllGo matchMdImage2 pass1.length pass1

/-! ## `_do_analyze` and `_run_accurate` from `main.py`

The pipeline is embedded as a function of an environment record bundling the
`os.environ` knobs it reads and the outcomes of its external collaborators
(page rendering, YOLO stamp subprocess, OCR backend, MinerU CLI, the OCR-fix
and review LLM calls).  `notify_django` payloads are collected in order; the
out-of-scope `job_id` and file paths inside error strings are elided. -/

/-- String literal helper. -/
def lit (s : String) : Str := s.toList

/-- One `notify_django` payload; absent dictionary keys are `none`. -/
structure Payload where
  status : Str
  progress : Int
  stage : Str
  mode : Option Str := none
  meta : Option JObj := none
  error : Option Str := none
  result_markdown : Option Str := none
  result_json : Option JObj := none

/-- A running-status payload. -/
def running (progress : Int) (stage : String) (mode : Option Str)
    (meta : Option JObj := none) : Payload :=
  { status := lit "running", progress := progress, stage := lit stage,
    mode := mode, meta := meta }

/-- The outcome of the review call under `_llm_with_timeout`. -/
inductive LLMOut where
  | done (review : JObj) (callMeta : JValue)
  | timeout
  | failed (msg : Str)

/-- Environment of one `_do_analyze` run: the `os.environ` configuration the
worker reads, and the oracle outcomes of its external collaborators. -/
structure PipelineEnv where
  reviewMode : Str                  -- REVIEW_MODE, normalized
  pageCount : Int                   -- _pdf_page_count
  fastOnlyPages : Int               -- FAST_ONLY_IF_PAGES_GT (default 0)
  stampSkipPages : Int              -- STAMP_SKIP_IF_PAGES_GT (default 0)
  stampAttempt : Bool               -- STAMP_ENABLED and a model path that exists
  stampImages : Bool                -- page rendering succeeded with a non-empty list
  stampDetectRaises : Bool          -- the YOLO subprocess raised
  stampResult : Option JObj         -- stamp_result after the stamp section
  qwenTimeout : Int                 -- QWEN_TIMEOUT (default 180)
  fallbackMinChars : Int            -- AUTO_FALLBACK_MIN_CHARS (default 200)
  fallbackMinScore : ℚ              -- AUTO_FALLBACK_MIN_OCR_SCORE (default 0.58)
  forceAccurateEnv : Bool           -- AUTO_FORCE_ACCURATE == "1"
  fastOcr : Except Str Str          -- _fast_ocr_pdf_to_text (fast pass)
  mineruFirstRaises : Bool          -- run_mineru_cli raised
  mineruDeviceNotCpu : Bool         -- sanitized MINERU_DEVICE != "cpu"
  mineruErrMsg : Str                -- str(e) of the first MinerU failure
  mineruRetryRaises : Bool          -- the forced-CPU retry raised
  mineruRetryErrMsg : Str
  mineruMd : Option Str             -- content of the largest .md artifact, if any
  accFallbackOcr : Except Str Str   -- _fast_ocr_pdf_to_text (accurate-fallback pass)
  fastMaxChars : Int                -- FAST_MAX_CHARS (default 35000)
  fastMaxLines : Int                -- FAST_MAX_LINES (default 1200)
  ocrLlmFixEnabled : Bool           -- OCR_LLM_FIX_ENABLED (default true)
  ocrLlmFixMinScore : ℚ             -- OCR_LLM_FIX_MIN_SCORE (default 0.55)
  fixOutcome : Except Str (Str × JValue)  -- fix_ocr_text
  normalizedFixedText : Str         -- _normalize_ocr_text of the fixed text
  zeroTolerance : Bool              -- OCR_ZERO_TOLERANCE (default false)
  zeroMinScore : ℚ                  -- OCR_ZERO_MIN_SCORE (default 0.78)
  zeroMaxUnknown : Int              -- OCR_ZERO_MAX_UNKNOWN_CHARS (default 2)
  qwenInputMaxChars : Int           -- QWEN_INPUT_MAX_CHARS (default 80000)
  qwenHeadRatio : ℚ                 -- QWEN_INPUT_HEAD_RATIO (default 0.75)
  resultMdMaxCharsEnv : Option Int  -- WORKER_RESULT_MARKDOWN_MAX_CHARS override
  llmOutcome : LLMOut

/-- `meta.get("mode")` as an optional mode string. -/
def metaMode (meta : JObj) : Option Str :=
  match dget meta "mode".toList with
  | some (.str s) => some s
  | _ => none

/-- The fallback reasons collected in the AUTO branch of `_do_analyze`. -/
def autoReasons (force : Bool) (minChars : Int) (minScore : ℚ) (text : Str)
    (q : QualityMetrics) : List Str :=
  (if force then [lit "force_accurate"] else []) ++
    (if ((pyStrip text).length : Int) < minChars then [lit "chars_below_threshold"] else []) ++
    (if q.score < minScore then [lit "score_below_threshold"] else [])

/-- The shared no-markdown/empty-markdown fallback block of `_run_accurate`
(`reason` is the recorded `fallback_reason`). -/
def accFallback (env : PipelineEnv) (reason : String) (emptyMsg : String) :
    List Payload × Except Str (Str × JObj) :=
  match env.accFallbackOcr with
  | .error m => ([], .error m)
  | .ok text =>
    if (pyStrip text).isEmpty then ([], .error (lit emptyMsg))
    else
      let sliced := fastSliceText env.fastMaxChars env.fastMaxLines text
      let finalText := if (pyStrip sliced.1).isEmpty then pyStrip text else pyStrip sliced.1
      let quality := ocrQualityMetrics text
      let meta0 : JObj :=
        [(lit "mode", .str (lit "accurate_fallback")),
         (lit "fallback_reason", .str (lit reason)),
         (lit "orig_chars", .num (text.length : ℚ)),
         (lit "fast_ocr_score", .num quality.score),
         (lit "fast_keyword_hits", .num (quality.keyword_hits : ℚ)),
         (lit "fast_garbage_ratio", .num quality.garbage_r)]
      let meta := dupdate meta0 (sliced.2.filter (fun p => p.1 ≠ lit "mode"))
      ([running 72 "accurate_fallback_done" (some (lit "accurate_fallback"))
          (some [(lit "fallback_text_chars", .num (finalText.length : ℚ)),
                 (lit "fast_ocr_score", .num quality.score)])],
       .ok (finalText, meta))

/-- The part of `_run_accurate` after `run_mineru_cli` succeeded. -/
def runAccurateTail (env : PipelineEnv) : List Payload × Except Str (Str × JObj) :=
  let cb65 := running 65 "mineru_done" (some (lit "accurate"))
  match env.mineruMd with
  | none =>
    let cb68 := running 68 "mineru_no_md_fallback" (some (lit "accurate"))
      (some [(lit "reason", .str (lit "no_markdown"))])
    let fb := accFallback env "mineru_no_markdown"
      "no markdown found; fallback OCR produced empty text"
    ([cb65, cb68] ++ fb.1, fb.2)
  | some raw =>
    let mdText := stripMdImages raw
    if (pyStrip mdText).isEmpty then
      let cb68 := running 68 "mineru_empty_md_fallback" (some (lit "accurate"))
      let fb := accFallback env "mineru_empty_markdown"
        "mineru markdown empty; fallback OCR produced empty text"
      ([cb65, cb68] ++ fb.1, fb.2)
    else
      ([cb65], .ok (mdText, [(lit "mode", .str (lit "accurate")),
                             (lit "orig_chars", .num (mdText.length : ℚ))]))

/-- `_run_accurate`: callbacks plus either the extracted text with its meta, or
the propagated exception text. -/
def runAccurate (env : PipelineEnv) : List Payload × Except Str (Str × JObj) :=
  let cb35 := running 35 "mineru_start" (some (lit "accurate"))
  if env.mineruFirstRaises then
    if env.mineruDeviceNotCpu && isCudaFailure env.mineruErrMsg then
      let cb45 := running 45 "mineru_retry_cpu" (some (lit "accurate"))
      if env.mineruRetryRaises then ([cb35, cb45], .error env.mineruRetryErrMsg)
      else
        let t := runAccurateTail env
        ([cb35, cb45] ++ t.1, t.2)
    else ([cb35], .error env.mineruErrMsg)
  else
    let t := runAccurateTail env
    ([cb35] ++ t.1, t.2)

/-- Result of the extraction phase of `_do_analyze`. -/
structure ExtractOut where
  callbacks : List Payload
  result : Except Str (Str × JObj)
  accurateInvoked : Bool

/-- The `ocr_done` quality patch shared by the fast/auto branches. -/
def fastQualityPatch (text : Str) (q : QualityMetrics) : JObj :=
  [(lit "fast_ocr_score", .num q.score),
   (lit "fast_keyword_hits", .num (q.keyword_hits : ℚ)),
   (lit "fast_garbage_ratio", .num q.garbage_r)]

/-- The AUTO decision branch after the fast OCR pass (`includeForce` is false
only in the unknown-mode copy of the block, whose fallback meta omits the
`force` key and whose reasons never include `force_accurate`). -/
def autoBranch (env : PipelineEnv) (forceAcc : Bool) (includeForce : Bool)
    (text : Str) (q : QualityMetrics) (pre : List Payload) : ExtractOut :=
  let reasons := autoReasons forceAcc env.fallbackMinChars env.fallbackMinScore text q
  if reasons.isEmpty then
    let sliced := fastSliceText env.fastMaxChars env.fastMaxLines text
    ⟨pre, .ok (sliced.1, dupdate sliced.2 (fastQualityPatch text q)), false⟩
  else
    let fbMeta : JObj :=
      [(lit "fast_chars", .num (text.length : ℚ)),
       (lit "fast_ocr_score", .num q.score),
       (lit "min_chars", .num (env.fallbackMinChars : ℚ)),
       (lit "min_score", .num env.fallbackMinScore)] ++
      (if includeForce then [(lit "force", .bool forceAcc)] else []) ++
      [(lit "reasons", .arr (reasons.map .str))]
    let cb30 := running 30 "fallback_to_accurate" (some (lit "auto")) (some fbMeta)
    let acc := runAccurate env
    match acc.2 with
    | .error m => ⟨pre ++ [cb30] ++ acc.1, .error m, true⟩
    | .ok tm =>
      let meta := dupdate tm.2
        [(lit "fast_probe_chars", .num (text.length : ℚ)),
         (lit "fast_probe_score", .num q.score),
         (lit "fallback_reasons", .arr (reasons.map .str))]
      ⟨pre ++ [cb30] ++ acc.1, .ok (tm.1, meta), true⟩

/-- The extraction phase of `_do_analyze` (fast OCR, AUTO fallback decision, or
the direct accurate path). -/
def extractPhase (env : PipelineEnv) (modeEff : Str) (forceAcc : Bool) : ExtractOut :=
  if modeEff = lit "auto" ∨ modeEff = lit "fast" then
    let cb15 := running 15 "ocr_start" (some (lit "fast"))
    match env.fastOcr with
    | .error m => ⟨[cb15], .error m, false⟩
    | .ok text =>
      let q := ocrQualityMetrics text
      let cb28 := running 28 "ocr_done" (some (lit "fast"))
        (some ([(lit "fast_chars", .num (text.length : ℚ))] ++ fastQualityPatch text q))
      if modeEff = lit "fast" then
        let sliced := fastSliceText env.fastMaxChars env.fastMaxLines text
        ⟨[cb15, cb28], .ok (sliced.1, dupdate sliced.2 (fastQualityPatch text q)), false⟩
      else autoBranch env forceAcc true text q [cb15, cb28]
  else if modeEff = lit "accurate" then
    let acc := runAccurate env
    match acc.2 with
    | .error m => ⟨acc.1, .error m, true⟩
    | .ok tm => ⟨acc.1, .ok tm, true⟩
  else
    let cb15 := running 15 "ocr_start" (some (lit "fast"))
    match env.fastOcr with
    | .error m => ⟨[cb15], .error m, false⟩
    | .ok text =>
      let q := ocrQualityMetrics text
      let cb28 := running 28 "ocr_done" (some (lit "fast"))
        (some ([(lit "fast_chars", .num (text.length : ℚ))] ++ fastQualityPatch text q))
      autoBranch env false false text q [cb15, cb28]

/-- The stamp-detection callbacks (progress 12 and 14), emitted before the
`start` callback; a rendering failure or empty page list is `stampImages =
false`. -/
def stampCallbacks (env : PipelineEnv) (mode0 : Str) : List Payload :=
  if 0 < env.stampSkipPages ∧ env.stampSkipPages < env.pageCount then []
  else if env.stampAttempt && env.stampImages then
    if env.stampDetectRaises then [running 12 "stamp_start" (some mode0)]
    else [running 12 "stamp_start" (some mode0), running 14 "stamp_done" (some mode0)]
  else []

/-- What one `_do_analyze` run produced: its callback sequence, whether the
accurate path was invoked, and the extraction-phase meta. -/
structure PipelineRun where
  callbacks : List Payload
  accurateInvoked : Bool
  extractionMeta : Option JObj

/-- The `worker_error` terminal callback. -/
def workerErrorCb (modeEff : Str) (m : Str) : Payload :=
  { status := lit "error", progress := 100, stage := lit "worker_error",
    mode := some modeEff, error := some (lit "worker exception: " ++ m) }

/-- The OCR-noise-fix stage: its callbacks (progress 74 and 77), the possibly
replaced text, and the meta with the `ocr_llm_fix` record. -/
def fixStage (env : PipelineEnv) (finalText0 : Str) (meta0 : JObj) :
    List Payload × Str × JObj :=
  if shouldRunLlmOcrFix env.ocrLlmFixEnabled env.ocrLlmFixMinScore finalText0 then
    let cb74 := running 74 "ocr_llm_fix_start" (metaMode meta0)
    let step :=
      match env.fixOutcome with
      | .ok fo =>
        if ¬fo.1.isEmpty ∧
            (max 120 ⌊((pyStrip finalText0).length : ℚ) * (45 / 100 : ℚ)⌋ : Int) ≤
              ((pyStrip fo.1).length : Int) then
          let ft := env.normalizedFixedText
          (ft, dset meta0 (lit "ocr_llm_fix")
            (.obj [(lit "applied", .bool true), (lit "chars", .num (ft.length : ℚ)),
                   (lit "llm", fo.2)]))
        else
          (finalText0, dset meta0 (lit "ocr_llm_fix")
            (.obj [(lit "applied", .bool false),
                   (lit "reason", .str (lit "too_short_or_empty")), (lit "llm", fo.2)]))
      | .error e =>
        (finalText0, dset meta0 (lit "ocr_llm_fix")
          (.obj [(lit "applied", .bool false), (lit "error", .str e)]))
    let fixMetaVal := match dget step.2 (lit "ocr_llm_fix") with
      | some (.obj o) => some o
      | _ => none
    ([cb74, running 77 "ocr_llm_fix_done" (metaMode step.2) fixMetaVal], step.1, step.2)
  else ([], finalText0, meta0)

/-- A terminal error payload of `_do_analyze`. -/
def terminalErrorCb (env : PipelineEnv) (stage : String) (err : Str) (meta : JObj)
    (finalText : Str) : Payload :=
  { status := lit "error", progress := 100, stage := lit stage,
    mode := metaMode meta, meta := some meta, error := some err,
    result_markdown := some (clipMarkdownForCallback env.resultMdMaxCharsEnv finalText true),
    result_json := some (buildErrorResult err (metaMode meta) (some meta) env.stampResult) }

/-- Everything `_do_analyze` does after a successful extraction: the OCR fix,
the zero-tolerance guard, the clip, and the review call under its timeout. -/
def postExtract (env : PipelineEnv) (finalText0 : Str) (meta0 : JObj) : List Payload :=
  let fs := fixStage env finalText0 meta0
  let finalText1 := fs.2.1
  let meta1 := fs.2.2
  let guard := ocrZeroToleranceGuard env.zeroMinScore env.zeroMaxUnknown finalText1
  if env.zeroTolerance ∧ guard.1 = false then
    let meta2 := dset meta1 (lit "ocr_zero_tolerance") (.obj guard.2)
    fs.1 ++ [terminalErrorCb env "ocr_zero_guard_failed"
      (lit "OCR zero-tolerance guard blocked result") meta2 finalText1]
  else
    let meta2 := if env.zeroTolerance then dset meta1 (lit "ocr_zero_tolerance") (.obj guard.2)
      else meta1
    let clip := clipTextForLlm env.qwenInputMaxChars env.qwenHeadRatio finalText1
    let meta3 := dupdate meta2 clip.2
    let cb80 := running 80 "llm_start" (metaMode meta3) (some meta3)
    let terminal :=
      match env.llmOutcome with
      | .timeout =>
        terminalErrorCb env "llm_timeout"
          (lit "llm timeout after " ++ intToStr env.qwenTimeout ++ lit "s") meta3 finalText1
      | .failed m =>
        terminalErrorCb env "llm_error" (lit "llm failed: " ++ m) meta3 finalText1
      | .done review callMeta =>
        let meta4 := dset meta3 (lit "llm_call") callMeta
        let merged := mergeStampResult (dset review (lit "_llm_meta") callMeta) env.stampResult
        { status := lit "done", progress := 100, stage := lit "done",
          mode := metaMode meta4, meta := some meta4,
          result_markdown := some (clipMarkdownForCallback env.resultMdMaxCharsEnv finalText1 false),
          result_json := some merged }
    fs.1 ++ [cb80, terminal]

/-- Whether the page ceiling routes the run to fast-only. -/
def pipelineDowngrade (env : PipelineEnv) : Prop :=
  0 < env.fastOnlyPages ∧ env.fastOnlyPages < env.pageCount

instance (env : PipelineEnv) : Decidable (pipelineDowngrade env) := by
  unfold pipelineDowngrade; infer_instance

/-- The effective mode after the fast-only downgrade. -/
def pipelineModeEff (env : PipelineEnv) : Str :=
  if pipelineDowngrade env ∧ (env.reviewMode = lit "auto" ∨ env.reviewMode = lit "accurate")
  then lit "fast" else env.reviewMode

/-- The forced-accurate flag after the fast-only downgrade clears it. -/
def pipelineForceAcc (env : PipelineEnv) : Bool :=
  if pipelineDowngrade env then false else env.forceAccurateEnv

/-- The extraction phase as `_do_analyze` invokes it. -/
def pipelineExt (env : PipelineEnv) : ExtractOut :=
  extractPhase env (pipelineModeEff env) (pipelineForceAcc env)

/-- `_do_analyze` from `main.py`. -/
def doAnalyze (env : PipelineEnv) : PipelineRun :=
  let modeEff := pipelineModeEff env
  let cbStart := running 5 "start" (some modeEff)
    (some [(lit "pages", .num (env.pageCount : ℚ))])
  let ext := pipelineExt env
  let tail :=
    match ext.result with
    | .error m => [workerErrorCb modeEff m]
    | .ok tm => postExtract env tm.1 tm.2
  ⟨stampCallbacks env env.reviewMode ++ [cbStart] ++ ext.callbacks ++ tail,
   ext.accurateInvoked,
   match ext.result with | .ok tm => some tm.2 | .error _ => none⟩

/-! ## `job_update` from `contract_review/views.py`

The stored `ContractJob` row and the parsed callback payload; `meta` is
carried in the payload model precisely because the claim under test says the
endpoint merges it — the handler's code never reads that key.
`detect_stamp_status` is an external text classifier, passed as an oracle. -/

/-- The `ContractJob` columns `job_update` can touch (plus `runtime_meta`,
which it never touches). -/
structure ContractJob where
  status : Str
  progress : Int
  stage : Str
  result_markdown : Str
  result_json : Option JValue
  runtime_meta : Option JValue
  error : Str

/-- The parsed JSON body of a worker callback (`None`-or-absent is `none`;
a non-integer `progress` is ignored by the handler's `try`, like an absent
one). -/
structure JobUpdatePayload where
  status : Option Str := none
  stage : Option Str := none
  progress : Option Int := none
  result_markdown : Option Str := none
  error : Option Str := none
  result_json : Option JValue := none
  meta : Option JValue := none

/-- Verdict of the `detect_stamp_status` text classifier. -/
structure StampVerdict where
  status : Str
  evidence : JValue

/-- `job_update` from `views.py`: `maxMdChars` is
`settings.MAX_RESULT_MARKDOWN_CHARS` (default 200000), `stampOracle` the
external stamp classifier. -/
def jobUpdate (maxMdChars : Int) (stampOracle : Str → Except Str StampVerdict)
    (job : ContractJob) (p : JobUpdatePayload) : ContractJob :=
  let job1 := match p.status with
    | some s => if ¬s.isEmpty ∧ s ≠ job.status then { job with status := s } else job
    | none => job
  let job2 := match p.stage with
    | some s =>
      let sv := if s.isEmpty then job1.stage else s
      if sv ≠ job1.stage then { job1 with stage := sv } else job1
    | none => job1
  let job3 := match p.progress with
    | some n => if n ≠ job2.progress then { job2 with progress := n } else job2
    | none => job2
  let cur0 : JObj := match job.result_json with | some (.obj o) => o | _ => []
  let mdStep : ContractJob × JObj × Bool :=
    match p.result_markdown with
    | some md0 =>
      let tooLong := 0 < maxMdChars ∧ maxMdChars < (md0.length : Int)
      let md := if tooLong then md0.take maxMdChars.toNat else md0
      let cur1 := if tooLong then dset cur0 (lit "result_markdown_truncated") (.bool true) else cur0
      (if md ≠ job3.result_markdown then { job3 with result_markdown := md } else job3,
       cur1, tooLong)
    | none => (job3, cur0, false)
  let job4 := mdStep.1
  let job5 := match p.error with
    | some e => if e ≠ job4.error then { job4 with error := e } else job4
    | none => job4
  let rjStep : JObj × Bool :=
    match p.result_json with
    | some (.obj inc) => (dupdate mdStep.2.1 inc, true)
    | some v => (dset mdStep.2.1 (lit "result_json_raw") v, true)
    | none => (mdStep.2.1, mdStep.2.2)
  let hasStamp := dhas rjStep.1 (lit "stamp_status") || dhas rjStep.1 (lit "是否盖章")
  let shouldStamp :=
    p.result_markdown.isSome ∨ p.status = some (lit "done") ∨ p.status = some (lit "error")
  let afterStamp : JObj × Bool :=
    if ¬hasStamp = true ∧ shouldStamp then
      let textForStamp := p.result_markdown.getD job5.result_markdown
      match stampOracle textForStamp with
      | .ok v =>
        let cn := if v.status = lit "YES" then lit "是"
          else if v.status = lit "UNCERTAIN" then lit "不确定" else lit "否"
        let c1 := dset rjStep.1 (lit "是否盖章") (.str cn)
        let c2 := dset c1 (lit "stamp_status") (.str v.status)
        (dset c2 (lit "stamp_evidence") v.evidence, true)
      | .error e =>
        let c1 := dset rjStep.1 (lit "stamp_status") (.str (lit "ERROR"))
        (dset c1 (lit "stamp_error") (.str e), true)
    else (rjStep.1, rjStep.2)
  if afterStamp.2 then { job5 with result_json := some (.obj afterStamp.1) } else job5

/-! ## Dictionary lemmas -/

theorem dget_cons_self {k : Str} {v : JValue} {rest : JObj} :
    dget ((k, v) :: rest) k = some v := by
  unfold dget
  rw [List.find?_cons_of_pos]
  · rfl
  · simp

theorem dget_cons_ne {p : Str × JValue} {rest : JObj} {k : Str} (h : p.1 ≠ k) :
    dget (p :: rest) k = dget rest k := by
  unfold dget
  rw [List.find?_cons_of_neg]
  simp [h]

theorem dget_setmap_self {k : Str} {v : JValue} :
    ∀ {o : JObj}, dhas o k = true →
      dget (o.map (fun p => if p.1 == k then (k, v) else p)) k = some v := by
  intro o
  induction o with
  | nil => intro h; simp [dhas] at h
  | cons p rest ih =>
    intro h
    simp only [List.map_cons]
    by_cases hp : p.1 = k
    · rw [if_pos (beq_iff_eq.mpr hp)]
      exact dget_cons_self
    · rw [if_neg (by simpa using hp)]
      rw [dget_cons_ne hp]
      apply ih
      simp only [dhas, List.any_cons, Bool.or_eq_true, beq_iff_eq] at h
      rcases h with h | h
      · exact absurd h hp
      · exact h

theorem dget_setmap_ne {k k' : Str} {v : JValue} (hne : k ≠ k') :
    ∀ (o : JObj), dget (o.map (fun p => if p.1 == k' then (k', v) else p)) k = dget o k := by
  intro o
  induction o with
  | nil => rfl
  | cons p rest ih =>
    simp only [List.map_cons]
    by_cases hp : p.1 = k'
    · rw [if_pos (beq_iff_eq.mpr hp)]
      have h2 : p.1 ≠ k := by rw [hp]; exact Ne.symm hne
      rw [dget_cons_ne (Ne.symm hne), dget_cons_ne h2]
      exact ih
    · rw [if_neg (by simpa using hp)]
      by_cases hk : p.1 = k
      · obtain ⟨a, b⟩ := p
        simp only at hk
        subst hk
        rw [dget_cons_self, dget_cons_self]
      · rw [dget_cons_ne hk, dget_cons_ne hk]
        exact ih

theorem dget_append_ne {k : Str} {v : JValue} {k' : Str} (hne : k ≠ k') :
    ∀ (o : JObj), dget (o ++ [(k', v)]) k = dget o k := by
  intro o
  induction o with
  | nil =>
    simp only [List.nil_append]
    rw [dget_cons_ne (Ne.symm hne)]
  | cons p rest ih =>
    by_cases hk : p.1 = k
    · obtain ⟨a, b⟩ := p
      simp only at hk
      subst hk
      simp only [List.cons_append]
      rw [dget_cons_self, dget_cons_self]
    · simp only [List.cons_append]
      rw [dget_cons_ne hk, dget_cons_ne hk]
      exact ih

theorem dget_append_self {k : Str} {v : JValue} :
    ∀ (o : JObj), dhas o k = false → dget (o ++ [(k, v)]) k = some v := by
  intro o
  induction o with
  | nil => intro _; exact dget_cons_self
  | cons p rest ih =>
    intro h
    simp only [dhas, List.any_cons, Bool.or_eq_false_iff] at h
    have hp : p.1 ≠ k := by
      have h1 := h.1
      simp only [beq_eq_false_iff_ne, ne_eq] at h1
      exact h1
    simp only [List.cons_append]
    rw [dget_cons_ne hp]
    exact ih h.2

theorem dget_dset_self (o : JObj) (k : Str) (v : JValue) : dget (dset o k v) k = some v := by
  unfold dset
  by_cases h : dhas o k
  · rw [if_pos h]
    exact dget_setmap_self h
  · rw [if_neg h]
    exact dget_append_self o (by simpa using h)

theorem dget_dset_ne {o : JObj} {k k' : Str} {v : JValue} (h : k ≠ k') :
    dget (dset o k' v) k = dget o k := by
  unfold dset
  by_cases hh : dhas o k'
  · rw [if_pos hh]
    exact dget_setmap_ne h o
  · rw [if_neg hh]
    exact dget_append_ne h o

theorem dget_dupdate_ne {k : Str} :
    ∀ (patch : JObj) (o : JObj), (∀ p ∈ patch, p.1 ≠ k) →
      dget (dupdate o patch) k = dget o k := by
  intro patch
  induction patch with
  | nil => intro o _; rfl
  | cons q rest ih =>
    intro o h
    have h1 : q.1 ≠ k := h q (by simp)
    have h2 : ∀ p ∈ rest, p.1 ≠ k := fun p hp => h p (by simp [hp])
    simp only [dupdate, List.foldl_cons]
    have := ih (dset o q.1 q.2) h2
    simp only [dupdate] at this
    rw [this, dget_dset_ne (Ne.symm h1)]

/-! ## C10 — quality metrics on blank input -/

/-- **C10.** For empty or whitespace-only input (Python `strip` yields the
empty string), `_ocr_quality_metrics` returns score 0 and all counts and
ratios 0, but `garbage_ratio` 1. -/
theorem ocr_quality_metrics_blank (t : Str) (h : pyStrip t = []) :
    ocrQualityMetrics t =
      { score := 0, char_count := 0, line_count := 0, han_r := 0, alpha_r := 0,
        garbage_r := 1, keyword_hits := 0, repeat_chunks := 0 } := by
  unfold ocrQualityMetrics
  rw [h]
  rfl

/-- Witness for C10 at the whitespace-only input `"  \n "`. -/
theorem ocr_quality_metrics_blank_witness :
    pyStrip "  \n ".toList = [] ∧
      ocrQualityMetrics "  \n ".toList =
        { score := 0, char_count := 0, line_count := 0, han_r := 0, alpha_r := 0,
          garbage_r := 1, keyword_hits := 0, repeat_chunks := 0 } :=
  ⟨by decide, ocr_quality_metrics_blank _ (by decide)⟩

/-! ## C2 — the context budgeter -/

theorem fitLoop_min_le (cfg : VLLMCfg) (hcap : cfg.min_output_tokens ≤ cfg.max_tokens) :
    ∀ (fuel : Nat) (fitted : List ChatMsg) (mt : Int), cfg.min_output_tokens ≤ mt →
      cfg.min_output_tokens ≤ (fitLoop cfg fuel fitted mt).2 := by
  intro fuel
  induction fuel with
  | zero =>
    intro fitted mt hmt
    simp only [fitLoop]
    omega
  | succ f ih =>
    intro fitted mt hmt
    simp only [fitLoop]
    split
    · exact hmt
    · split
      · exact ih _ _ (by omega)
      · split
        · dsimp only
          omega
        · split
          · exact ih _ _ hmt
          · dsimp only
            omega

theorem truncPass_length (over : Int) : ∀ (l : List ChatMsg),
    (truncPass over l).1.length = l.length := by
  intro l
  induction l with
  | nil => rfl
  | cons m rest ih =>
    simp only [truncPass, List.length_cons]
    rw [ih]

theorem fitLoop_length (cfg : VLLMCfg) : ∀ (fuel : Nat) (fitted : List ChatMsg) (mt : Int),
    (fitLoop cfg fuel fitted mt).1.length = fitted.length := by
  intro fuel
  induction fuel with
  | zero => intro fitted mt; rfl
  | succ f ih =>
    intro fitted mt
    simp only [fitLoop]
    split
    · rfl
    · split
      · exact ih _ _
      · split
        · rfl
        · split
          · rw [ih]
            exact truncPass_length _ _
          · rfl

/-- **C2 (amended).** `_fit_messages_to_context` always returns (it is a
bounded loop), preserves the number of messages, and the resolved
max-output-token count is never below the configured minimum output tokens
provided the configured `max_tokens` cap is at least that minimum (the
best-effort return after the loop caps the value at `max(8, min(·,
max_tokens))`, so a configuration with `max_tokens < min_output_tokens` can
resolve below the minimum). -/
theorem fit_messages_min_output (cfg : VLLMCfg) (msgs : List ChatMsg) (desired : Int)
    (hcap : cfg.min_output_tokens ≤ cfg.max_tokens) :
    cfg.min_output_tokens ≤ (fitMessagesToContext cfg msgs desired).2 ∧
      (fitMessagesToContext cfg msgs desired).1.length = msgs.length := by
  constructor
  · exact fitLoop_min_le cfg hcap 8 msgs _ (by simp [le_max_iff])
  · exact fitLoop_length cfg 8 msgs _

/-- Witness for the amended C2 at the default-shaped configuration. -/
theorem fit_messages_min_output_witness :
    (⟨256, 24, 16, 48⟩ : VLLMCfg).min_output_tokens ≤
        (fitMessagesToContext ⟨256, 24, 16, 48⟩ [⟨"user".toList, "hello".toList⟩] 64).2 ∧
      (fitMessagesToContext ⟨256, 24, 16, 48⟩ [⟨"user".toList, "hello".toList⟩] 64).1.length = 1 :=
  fit_messages_min_output _ _ _ (by decide)

/-- **C2 counterexample.** With the reachable configuration
`LOCAL_VLLM_CONTEXT_WINDOW=128, LOCAL_VLLM_MIN_OUTPUT_TOKENS=100,
LOCAL_VLLM_CONTEXT_SAFETY_MARGIN=16, LOCAL_VLLM_MAX_TOKENS=16` and a single
oversized system message, the fitter resolves 16 output tokens — below the
configured minimum of 100, refuting the claim as stated. -/
theorem fit_messages_below_min_counterexample :
    (fitMessagesToContext ⟨128, 100, 16, 16⟩
        [⟨"system".toList, List.replicate 40 'a'⟩] 64).2 <
      (⟨128, 100, 16, 16⟩ : VLLMCfg).min_output_tokens := by
  decide

/-! ## C7 — the fallback-of-a-fallback in `_run_accurate` -/

theorem fastSliceText_meta_keys (a b : Int) (t : Str) :
    ∀ p ∈ (fastSliceText a b t).2, p.1 = lit "mode" ∨ p.1 = lit "orig_chars" ∨
      p.1 = lit "sliced_chars" ∨ p.1 = lit "orig_lines" ∨ p.1 = lit "sliced_lines" := by
  intro p hp
  simp only [fastSliceText, List.mem_cons, List.not_mem_nil, or_false] at hp
  rcases hp with rfl | rfl | rfl | rfl | rfl <;> dsimp only <;> decide

/-- In the accurate-path fallback block, a non-empty fallback OCR text yields a
successful result whose meta records the given `fallback_reason` and the
`accurate_fallback` mode. -/
theorem accFallback_spec (env : PipelineEnv) (reason emptyMsg : String) (text : Str)
    (hocr : env.accFallbackOcr = .ok text) (hne : pyStrip text ≠ []) :
    ∃ tm, (accFallback env reason emptyMsg).2 = .ok tm ∧
      dget tm.2 (lit "fallback_reason") = some (.str (lit reason)) ∧
      dget tm.2 (lit "mode") = some (.str (lit "accurate_fallback")) := by
  unfold accFallback
  rw [hocr]
  dsimp only
  rw [if_neg (by simpa using hne)]
  refine ⟨_, rfl, ?_, ?_⟩
  · rw [dget_dupdate_ne]
    · rw [dget_cons_ne (by decide)]
      exact dget_cons_self
    · intro p hp
      simp only [List.mem_filter, decide_eq_true_eq] at hp
      have hk := fastSliceText_meta_keys env.fastMaxChars env.fastMaxLines text p hp.1
      rcases hk with h | h | h | h | h <;> rw [h] <;> decide
  · rw [dget_dupdate_ne]
    · exact dget_cons_self
    · intro p hp
      simp only [List.mem_filter, decide_eq_true_eq] at hp
      exact hp.2

/-- **C7 (amended).** When MinerU completes but leaves no markdown artifact, or
an artifact that is empty once images are stripped, `_run_accurate` does not
fail provided the fallback fast-OCR text is non-empty: it returns that text
with `meta.fallback_reason` equal to `"mineru_no_markdown"` respectively
`"mineru_empty_markdown"` (not `"parser_empty"`), and
`meta.mode = "accurate_fallback"`; when the fallback OCR text is empty the run
does fail. -/
theorem accurate_parser_empty_fallback (env : PipelineEnv) (text : Str)
    (hfirst : env.mineruFirstRaises = false)
    (hocr : env.accFallbackOcr = .ok text) (hne : pyStrip text ≠ []) :
    (env.mineruMd = none →
      ∃ tm, (runAccurate env).2 = .ok tm ∧
        dget tm.2 (lit "fallback_reason") = some (.str (lit "mineru_no_markdown")) ∧
        dget tm.2 (lit "mode") = some (.str (lit "accurate_fallback"))) ∧
    (∀ raw, env.mineruMd = some raw → pyStrip (stripMdImages raw) = [] →
      ∃ tm, (runAccurate env).2 = .ok tm ∧
        dget tm.2 (lit "fallback_reason") = some (.str (lit "mineru_empty_markdown")) ∧
        dget tm.2 (lit "mode") = some (.str (lit "accurate_fallback"))) := by
  have hrun : (runAccurate env).2 = (runAccurateTail env).2 := by
    unfold runAccurate
    rw [hfirst]
    simp only [Bool.false_eq_true, if_false]
  constructor
  · intro hmd
    have htail : (runAccurateTail env).2 =
        (accFallback env "mineru_no_markdown"
          "no markdown found; fallback OCR produced empty text").2 := by
      unfold runAccurateTail
      rw [hmd]
    rw [hrun, htail]
    exact accFallback_spec env _ _ text hocr hne
  · intro raw hmd hempty
    have htail : (runAccurateTail env).2 =
        (accFallback env "mineru_empty_markdown"
          "mineru markdown empty; fallback OCR produced empty text").2 := by
      unfold runAccurateTail
      rw [hmd]
      dsimp only
      rw [if_pos (by simpa using hempty)]
    rw [hrun, htail]
    exact accFallback_spec env _ _ text hocr hne

/-- Concrete environment for the C7 theorems: MinerU succeeds but produces no
markdown, and the fallback OCR yields contract-like text. -/
def envC7 : PipelineEnv :=
  { reviewMode := lit "accurate", pageCount := 1, fastOnlyPages := 0, stampSkipPages := 0,
    stampAttempt := false, stampImages := false, stampDetectRaises := false,
    stampResult := none, qwenTimeout := 180, fallbackMinChars := 200,
    fallbackMinScore := 58 / 100, forceAccurateEnv := false, fastOcr := .ok [],
    mineruFirstRaises := false, mineruDeviceNotCpu := true, mineruErrMsg := [],
    mineruRetryRaises := false, mineruRetryErrMsg := [], mineruMd := none,
    accFallbackOcr := .ok (lit "合同文本"), fastMaxChars := 35000, fastMaxLines := 1200,
    ocrLlmFixEnabled := false, ocrLlmFixMinScore := 55 / 100, fixOutcome := .error [],
    normalizedFixedText := [], zeroTolerance := false, zeroMinScore := 78 / 100,
    zeroMaxUnknown := 2, qwenInputMaxChars := 80000, qwenHeadRatio := 3 / 4,
    resultMdMaxCharsEnv := none, llmOutcome := .timeout }

/-- **C7 counterexample.** On a run where MinerU produced no markdown and the
fallback OCR succeeded, the recorded reason is `"mineru_no_markdown"` — not
`"parser_empty"` as the claim states. -/
theorem accurate_fallback_reason_counterexample :
    (∃ tm, (runAccurate envC7).2 = .ok tm ∧
        dget tm.2 (lit "fallback_reason") = some (.str (lit "mineru_no_markdown"))) ∧
      lit "mineru_no_markdown" ≠ lit "parser_empty" := by
  constructor
  · exact ⟨_, rfl, rfl⟩
  · decide

/-- Witness for the amended C7 at `envC7`. -/
theorem accurate_parser_empty_fallback_witness :
    envC7.mineruFirstRaises = false ∧ envC7.accFallbackOcr = .ok (lit "合同文本") ∧
      pyStrip (lit "合同文本") ≠ [] ∧ envC7.mineruMd = none ∧
      (∃ tm, (runAccurate envC7).2 = .ok tm ∧
        dget tm.2 (lit "fallback_reason") = some (.str (lit "mineru_no_markdown")) ∧
        dget tm.2 (lit "mode") = some (.str (lit "accurate_fallback"))) :=
  ⟨rfl, rfl, by decide, rfl,
    (accurate_parser_empty_fallback envC7 (lit "合同文本") rfl rfl (by decide)).1 rfl⟩

/-! ## C8 — the llm-timeout terminal callback -/

theorem strStarts_append {n s : Str} (t : Str) (h : strStarts n s = true) :
    strStarts n (s ++ t) = true := by
  induction n generalizing s with
  | nil => rfl
  | cons a as ih =>
    cases s with
    | nil => simp [strStarts] at h
    | cons b bs =>
      simp only [strStarts, Bool.and_eq_true] at h ⊢
      exact ⟨h.1, ih h.2⟩

theorem strHas_of_starts {n s : Str} (h : strStarts n s = true) : strHas s n = true := by
  cases s with
  | nil =>
    cases n with
    | nil => rfl
    | cons a as => simp [strStarts] at h
  | cons c rest =>
    simp only [strHas, Bool.or_eq_true]
    exact Or.inl h

theorem strHas_append_left {s n : Str} (h : strHas s n = true) :
    ∀ (pre : Str), strHas (pre ++ s) n = true := by
  intro pre
  induction pre with
  | nil => simpa using h
  | cons c rest ih =>
    simp only [List.cons_append, strHas, Bool.or_eq_true]
    exact Or.inr ih

/-- The timeout error text contains `"timeout"`. -/
theorem timeout_msg_has_timeout (t : Int) :
    strHas (lit "llm timeout after " ++ intToStr t ++ lit "s") (lit "timeout") = true := by
  have hsplit : lit "llm timeout after " = lit "llm " ++ lit "timeout after " := by decide
  rw [hsplit, List.append_assoc, List.append_assoc]
  apply strHas_append_left
  apply strHas_of_starts
  apply strStarts_append
  decide

theorem getLast_append_pair {α : Type _} (A B C D : List α) (x y : α) :
    (A ++ B ++ C ++ (D ++ [x, y])).getLast? = some y := by
  rw [List.getLast?_append_of_ne_nil]
  · show (D ++ [x, y]).getLast? = some y
    have h2 : D ++ [x, y] = (D ++ [x]) ++ [y] := by simp
    rw [h2, List.getLast?_concat]
  · simp

/-- **C8 (amended).** When the review call times out (and the zero-tolerance
guard did not abort the run first, and no stamp result is merged over the
error keys), the terminal callback has `status = "error"`,
`stage = "llm_timeout"`, `progress = 100`, an error text containing
`"timeout"` — and it carries a structured error result (`build_error_result`,
holding that error text) rather than no structured result. -/
theorem llm_timeout_terminal (env : PipelineEnv) (tm : Str × JObj)
    (hext : (pipelineExt env).result = .ok tm)
    (hllm : env.llmOutcome = .timeout)
    (hstamp : env.stampResult = none)
    (hzero : ¬(env.zeroTolerance = true ∧
      (ocrZeroToleranceGuard env.zeroMinScore env.zeroMaxUnknown
        (fixStage env tm.1 tm.2).2.1).1 = false)) :
    ∃ p, (doAnalyze env).callbacks.getLast? = some p ∧
      p.status = lit "error" ∧ p.progress = 100 ∧ p.stage = lit "llm_timeout" ∧
      (∃ e, p.error = some e ∧ strHas e (lit "timeout") = true) ∧
      (∃ rj, p.result_json = some rj ∧
        dget rj (lit "error") =
          some (.str (lit "llm timeout after " ++ intToStr env.qwenTimeout ++ lit "s"))) := by
  obtain ⟨m3, hpost⟩ : ∃ m3, postExtract env tm.1 tm.2 =
      (fixStage env tm.1 tm.2).1 ++
        [running 80 "llm_start" (metaMode m3) (some m3),
         terminalErrorCb env "llm_timeout"
           (lit "llm timeout after " ++ intToStr env.qwenTimeout ++ lit "s")
           m3 (fixStage env tm.1 tm.2).2.1] := by
    unfold postExtract
    rw [if_neg (by simpa using hzero), hllm]
    exact ⟨_, rfl⟩
  have hcb : (doAnalyze env).callbacks =
      stampCallbacks env env.reviewMode ++
        [running 5 "start" (some (pipelineModeEff env))
          (some [(lit "pages", .num (env.pageCount : ℚ))])] ++
        (pipelineExt env).callbacks ++ postExtract env tm.1 tm.2 := by
    unfold doAnalyze
    dsimp only
    rw [hext]
  rw [hcb, hpost]
  refine ⟨_, getLast_append_pair _ _ _ _ _ _, rfl, rfl, rfl,
    ⟨_, rfl, timeout_msg_has_timeout env.qwenTimeout⟩, ?_⟩
  refine ⟨_, rfl, ?_⟩
  unfold buildErrorResult
  rw [hstamp]
  dsimp only
  unfold mergeStampResult
  dsimp only
  rw [dget_dset_ne (by decide)]
  cases metaMode m3 with
  | none => exact dget_cons_self
  | some m =>
    dsimp only
    rw [dget_dset_ne (by decide)]
    exact dget_cons_self

/-- Concrete environment for the C8 theorems: a fast-mode run whose review
call times out. -/
def envC8 : PipelineEnv :=
  { reviewMode := lit "fast", pageCount := 1, fastOnlyPages := 0, stampSkipPages := 0,
    stampAttempt := false, stampImages := false, stampDetectRaises := false,
    stampResult := none, qwenTimeout := 180, fallbackMinChars := 200,
    fallbackMinScore := 58 / 100, forceAccurateEnv := false,
    fastOcr := .ok (lit "合同文本"), mineruFirstRaises := false,
    mineruDeviceNotCpu := true, mineruErrMsg := [], mineruRetryRaises := false,
    mineruRetryErrMsg := [], mineruMd := none, accFallbackOcr := .error [],
    fastMaxChars := 35000, fastMaxLines := 1200, ocrLlmFixEnabled := false,
    ocrLlmFixMinScore := 55 / 100, fixOutcome := .error [], normalizedFixedText := [],
    zeroTolerance := false, zeroMinScore := 78 / 100, zeroMaxUnknown := 2,
    qwenInputMaxChars := 80000, qwenHeadRatio := 3 / 4, resultMdMaxCharsEnv := none,
    llmOutcome := .timeout }

/-- **C8 counterexample.** On a concrete timed-out run, the terminal
`llm_timeout` callback does carry a structured result (`result_json` is
present) — refuting the claim that it carries none. -/
theorem llm_timeout_result_json_counterexample :
    ∃ p, (doAnalyze envC8).callbacks.getLast? = some p ∧
      p.stage = lit "llm_timeout" ∧ p.result_json.isSome = true :=
  ⟨_, rfl, rfl, rfl⟩

/-- Witness for the amended C8 at `envC8`. -/
theorem llm_timeout_terminal_witness :
    (∃ tm, (pipelineExt envC8).result = .ok tm) ∧
      (∃ p, (doAnalyze envC8).callbacks.getLast? = some p ∧
        p.status = lit "error" ∧ p.progress = 100 ∧ p.stage = lit "llm_timeout" ∧
        (∃ e, p.error = some e ∧ strHas e (lit "timeout") = true) ∧
        (∃ rj, p.result_json = some rj ∧
          dget rj (lit "error") =
            some (.str (lit "llm timeout after " ++ intToStr envC8.qwenTimeout ++ lit "s")))) :=
  ⟨⟨_, rfl⟩, llm_timeout_terminal envC8 _ rfl rfl rfl (by simp [envC8])⟩

/-! ## C1 — the AUTO fallback decision -/

theorem dget_eq_none {o : JObj} {k : Str} (h : ∀ p ∈ o, p.1 ≠ k) : dget o k = none := by
  induction o with
  | nil => rfl
  | cons p rest ih =>
    rw [dget_cons_ne (h p (by simp))]
    exact ih (fun q hq => h q (by simp [hq]))

theorem fastQualityPatch_keys (t : Str) (q : QualityMetrics) :
    ∀ p ∈ fastQualityPatch t q, p.1 = lit "fast_ocr_score" ∨
      p.1 = lit "fast_keyword_hits" ∨ p.1 = lit "fast_garbage_ratio" := by
  intro p hp
  simp only [fastQualityPatch, List.mem_cons, List.not_mem_nil, or_false] at hp
  rcases hp with rfl | rfl | rfl <;> dsimp only <;> decide

theorem autoReasons_empty_iff (force : Bool) (mc : Int) (ms : ℚ) (t : Str)
    (q : QualityMetrics) :
    autoReasons force mc ms t q = [] ↔
      ¬(force = true ∨ ((pyStrip t).length : Int) < mc ∨ q.score < ms) := by
  unfold autoReasons
  split_ifs with h1 h2 h3 <;> simp_all

theorem autoBranch_acc (env : PipelineEnv) (force inc : Bool) (text : Str)
    (q : QualityMetrics) (pre : List Payload) :
    (autoBranch env force inc text q pre).accurateInvoked =
      !(autoReasons force env.fallbackMinChars env.fallbackMinScore text q).isEmpty := by
  unfold autoBranch
  by_cases h : (autoReasons force env.fallbackMinChars env.fallbackMinScore text q).isEmpty
  · rw [if_pos h, h]
    rfl
  · rw [if_neg h]
    dsimp only
    rw [Bool.not_eq_true] at h
    rw [h]
    cases (runAccurate env).2 <;> rfl

theorem autoBranch_result_empty (env : PipelineEnv) (force inc : Bool) (text : Str)
    (q : QualityMetrics) (pre : List Payload)
    (h : autoReasons force env.fallbackMinChars env.fallbackMinScore text q = []) :
    (autoBranch env force inc text q pre).result =
      .ok ((fastSliceText env.fastMaxChars env.fastMaxLines text).1,
        dupdate (fastSliceText env.fastMaxChars env.fastMaxLines text).2
          (fastQualityPatch text q)) := by
  unfold autoBranch
  rw [if_pos (by simp [h])]

theorem autoBranch_result_fb (env : PipelineEnv) (force inc : Bool) (text : Str)
    (q : QualityMetrics) (pre : List Payload) (tm : Str × JObj)
    (h : ¬ autoReasons force env.fallbackMinChars env.fallbackMinScore text q = [])
    (hacc : (runAccurate env).2 = .ok tm) :
    (autoBranch env force inc text q pre).result =
      .ok (tm.1, dupdate tm.2
        [(lit "fast_probe_chars", .num (text.length : ℚ)),
         (lit "fast_probe_score", .num q.score),
         (lit "fallback_reasons",
          .arr ((autoReasons force env.fallbackMinChars env.fallbackMinScore text q).map
            JValue.str))]) := by
  unfold autoBranch
  rw [if_neg (by simpa using h)]
  dsimp only
  rw [hacc]

theorem autoBranch_result_err (env : PipelineEnv) (force inc : Bool) (text : Str)
    (q : QualityMetrics) (pre : List Payload) (m : Str)
    (h : ¬ autoReasons force env.fallbackMinChars env.fallbackMinScore text q = [])
    (hacc : (runAccurate env).2 = .error m) :
    (autoBranch env force inc text q pre).result = .error m := by
  unfold autoBranch
  rw [if_neg (by simpa using h)]
  dsimp only
  rw [hacc]

/-- **C1.** In AUTO mode (and with no fast-only page downgrade), after a
successful fast OCR pass the pipeline invokes the accurate path exactly when
the forced-accurate flag is set, the stripped text length is below the
configured character floor, or the quality score is below the configured score
floor; and when the run's extraction meta exists it carries
`fallback_reasons` equal to the triggering reason list exactly when the
fallback happened, and no such key otherwise. -/
theorem auto_fallback_iff (env : PipelineEnv) (text : Str)
    (hmode : env.reviewMode = lit "auto")
    (hnd : ¬ pipelineDowngrade env)
    (hocr : env.fastOcr = .ok text) :
    ((doAnalyze env).accurateInvoked = true ↔
      (env.forceAccurateEnv = true ∨
        ((pyStrip text).length : Int) < env.fallbackMinChars ∨
        (ocrQualityMetrics text).score < env.fallbackMinScore)) ∧
    (∀ meta, (doAnalyze env).extractionMeta = some meta →
      ((doAnalyze env).accurateInvoked = true →
        dget meta (lit "fallback_reasons") =
          some (.arr ((autoReasons env.forceAccurateEnv env.fallbackMinChars
            env.fallbackMinScore text (ocrQualityMetrics text)).map JValue.str))) ∧
      ((doAnalyze env).accurateInvoked = false →
        dget meta (lit "fallback_reasons") = none)) := by
  have hme : pipelineModeEff env = lit "auto" := by
    unfold pipelineModeEff
    rw [if_neg (fun hc => hnd hc.1), hmode]
  have hfa : pipelineForceAcc env = env.forceAccurateEnv := by
    unfold pipelineForceAcc
    rw [if_neg hnd]
  obtain ⟨pre, hext⟩ : ∃ pre, pipelineExt env =
      autoBranch env env.forceAccurateEnv true text (ocrQualityMetrics text) pre := by
    unfold pipelineExt extractPhase
    rw [hme, hfa, if_pos (Or.inl rfl), hocr]
    dsimp only
    rw [if_neg (by decide)]
    exact ⟨_, rfl⟩
  have hacc : (doAnalyze env).accurateInvoked = (pipelineExt env).accurateInvoked := rfl
  have hmeta : (doAnalyze env).extractionMeta =
      (match (pipelineExt env).result with
        | .ok tm => some tm.2 | .error _ => none) := rfl
  have hiff := autoReasons_empty_iff env.forceAccurateEnv env.fallbackMinChars
    env.fallbackMinScore text (ocrQualityMetrics text)
  constructor
  · rw [hacc, hext, autoBranch_acc]
    constructor
    · intro h
      by_contra hcontra
      have he := hiff.mpr hcontra
      rw [he] at h
      simp at h
    · intro hd
      have hne : autoReasons env.forceAccurateEnv env.fallbackMinChars
          env.fallbackMinScore text (ocrQualityMetrics text) ≠ [] :=
        fun he => (hiff.mp he) hd
      simpa [List.isEmpty_iff] using hne
  · intro meta hm
    rw [hacc, hext, autoBranch_acc]
    by_cases hrs : autoReasons env.forceAccurateEnv env.fallbackMinChars
        env.fallbackMinScore text (ocrQualityMetrics text) = []
    · constructor
      · intro habs
        rw [hrs] at habs
        simp at habs
      · intro _
        rw [hmeta, hext, autoBranch_result_empty env _ _ _ _ _ hrs] at hm
        dsimp only at hm
        have hmv : meta = dupdate (fastSliceText env.fastMaxChars env.fastMaxLines text).2
            (fastQualityPatch text (ocrQualityMetrics text)) := by
          injection hm with h
          exact h.symm
        rw [hmv]
        rw [dget_dupdate_ne]
        · apply dget_eq_none
          intro p hp
          have := fastSliceText_meta_keys env.fastMaxChars env.fastMaxLines text p hp
          rcases this with h | h | h | h | h <;> rw [h] <;> decide
        · intro p hp
          have := fastQualityPatch_keys text (ocrQualityMetrics text) p hp
          rcases this with h | h | h <;> rw [h] <;> decide
    · constructor
      · intro _
        cases hr : (runAccurate env).2 with
        | error m =>
          rw [hmeta, hext, autoBranch_result_err env _ _ _ _ _ m hrs hr] at hm
          cases hm
        | ok tm =>
          rw [hmeta, hext, autoBranch_result_fb env _ _ _ _ _ tm hrs hr] at hm
          dsimp only at hm
          have hmv : meta = dupdate tm.2
              [(lit "fast_probe_chars", .num (text.length : ℚ)),
               (lit "fast_probe_score", .num (ocrQualityMetrics text).score),
               (lit "fallback_reasons",
                .arr ((autoReasons env.forceAccurateEnv env.fallbackMinChars
                  env.fallbackMinScore text (ocrQualityMetrics text)).map JValue.str))] := by
            injection hm with h
            exact h.symm
          rw [hmv]
          simp only [dupdate, List.foldl_cons, List.foldl_nil]
          exact dget_dset_self _ _ _
      · intro habs
        exfalso
        have h1 : (autoReasons env.forceAccurateEnv env.fallbackMinChars
            env.fallbackMinScore text (ocrQualityMetrics text)).isEmpty = true := by
          simpa using habs
        exact hrs (by simpa [List.isEmpty_iff] using h1)

/-- Concrete environment for the C1 witness: AUTO mode with a short low-score
OCR text, so the fallback fires for both the length and score reasons. -/
def envC1 : PipelineEnv :=
  { envC7 with
    reviewMode := lit "auto"
    fastOcr := .ok (lit "abc")
    mineruMd := some (lit "# 合同正文 第一条 条款内容")
    accFallbackOcr := .error [] }

/-- Witness for C1 at `envC1`: the fallback fires and `fallback_reasons` is
recorded in the extraction meta. -/
theorem auto_fallback_iff_witness :
    envC1.reviewMode = lit "auto" ∧ ¬ pipelineDowngrade envC1 ∧
      ((doAnalyze envC1).accurateInvoked = true ↔
        (envC1.forceAccurateEnv = true ∨
          ((pyStrip (lit "abc")).length : Int) < envC1.fallbackMinChars ∨
          (ocrQualityMetrics (lit "abc")).score < envC1.fallbackMinScore)) := by
  refine ⟨rfl, by decide, ?_⟩
  exact (auto_fallback_iff envC1 (lit "abc") rfl (by decide) rfl).1

/-! ## C5 — the local-provider circuit breaker -/

theorem probeHandle_not_ok (now cd stOld : ℚ) (e : ExcInfo) :
    (probeHandle now cd stOld e).1 ≠ .ok () := by
  unfold probeHandle
  split_ifs <;> simp

theorem preflight_ok_until (cfg : BreakerCfg) (st now : ℚ) (probe : ProbeOutcome)
    (h : (preflightHealth cfg st now probe).outcome = .ok ()) :
    (preflightHealth cfg st now probe).unhealthyUntil = st := by
  unfold preflightHealth at h ⊢
  by_cases hc : now < st
  · rw [if_pos hc] at h
    cases h
  · rw [if_neg hc] at h ⊢
    by_cases he : cfg.healthcheck_enabled
    · simp only [he, Bool.not_true, Bool.false_eq_true, if_false] at h ⊢
      cases probe with
      | status c =>
        dsimp only at h ⊢
        by_cases h5 : (500 : Int) ≤ c
        · rw [if_pos h5] at h ⊢
          exact absurd h (probeHandle_not_ok _ _ _ _)
        · rw [if_neg h5] at h ⊢
          by_cases h4 : (400 : Int) ≤ c
          · rw [if_pos h4] at h ⊢
            exact absurd h (probeHandle_not_ok _ _ _ _)
          · rw [if_neg h4] at h ⊢
      | exc e =>
        dsimp only at h
        exact absurd h (probeHandle_not_ok _ _ _ _)
    · simp only [Bool.not_eq_true] at he
      simp only [he, Bool.not_false, if_true]

/-- The 5xx-probe error text carries the `"health failed"` marker. -/
theorem health_msg_has_health_failed (c : Int) :
    strHas (lit "local vllm health failed: status=" ++ intToStr c)
      (lit "health failed") = true := by
  have hsplit : lit "local vllm health failed: status="
      = lit "local vllm " ++ lit "health failed: status=" := by decide
  rw [hsplit, List.append_assoc]
  apply strHas_append_left
  apply strHas_of_starts
  apply strStarts_append
  decide

/-- **C5 (amended).** The breaker behaviour of the local provider: (i) while
the cooldown is active every call fails fast with no network request and no
state change; (ii) a chat-call failure whose signature matches a server-side
fault (an HTTP 5xx status from the exception's status attribute, response
status or a code embedded in the message, or gateway text: `"bad gateway"`,
or `"gateway"` together with `"502"` — `_is_server_side_failure` matches no
cuda/OOM substrings) marks the provider unhealthy until `now + cooldown`;
(iii) call failures that do not match the server-side signature leave the
breaker untouched; (iv) empty model content raises the client-side
`"empty model response"` fault, which does not match the server-side
signature; (v) a health-probe exception whose signature matches a
server-side fault (or that carries the `"health failed"` marker) is
re-raised as-is WITHOUT marking the breaker; (vi) any other probe exception
marks the breaker until `now + cooldown` and re-raises wrapped; (vii) a
probe response with a 5xx status marks the breaker until `now + cooldown`
(its raised message carries the `"health failed"` marker). -/
theorem breaker_behavior :
    (∀ (cfg : BreakerCfg) (st now : ℚ) (probe : ProbeOutcome) (a1 a2 : AttemptResult),
      now < st →
        (chatJson cfg st now probe a1 a2).netCalls = 0 ∧
        (chatJson cfg st now probe a1 a2).unhealthyUntil = st ∧
        ∃ e, (chatJson cfg st now probe a1 a2).outcome = .error e) ∧
    (∀ (cfg : BreakerCfg) (st now : ℚ) (probe : ProbeOutcome) (a1 a2 : AttemptResult)
        (e1 : ExcInfo),
      (preflightHealth cfg st now probe).outcome = .ok () →
      runAttempt a1 = .error e1 → isServerSideFailure e1 = true →
        (chatJson cfg st now probe a1 a2).unhealthyUntil = now + cfg.unhealthy_cooldown) ∧
    (∀ (cfg : BreakerCfg) (st now : ℚ) (probe : ProbeOutcome) (a1 a2 : AttemptResult)
        (e1 e2 : ExcInfo),
      (preflightHealth cfg st now probe).outcome = .ok () →
      runAttempt a1 = .error e1 → isServerSideFailure e1 = false →
      runAttempt a2 = .error e2 → isServerSideFailure e2 = false →
        (chatJson cfg st now probe a1 a2).unhealthyUntil = st) ∧
    (∀ (raw : Str) (parsed : Except Str JValue), stripThink raw = [] →
      runAttempt (.ok raw parsed) = .error (mkExc (lit "empty model response")) ∧
      isServerSideFailure (mkExc (lit "empty model response")) = false) ∧
    (∀ (cfg : BreakerCfg) (st now : ℚ) (e : ExcInfo),
      ¬ now < st → cfg.healthcheck_enabled = true →
      (isServerSideFailure e || strHas e.msg (lit "health failed")) = true →
        (preflightHealth cfg st now (.exc e)).unhealthyUntil = st ∧
        (preflightHealth cfg st now (.exc e)).outcome = .error e) ∧
    (∀ (cfg : BreakerCfg) (st now : ℚ) (e : ExcInfo),
      ¬ now < st → cfg.healthcheck_enabled = true →
      (isServerSideFailure e || strHas e.msg (lit "health failed")) = false →
        (preflightHealth cfg st now (.exc e)).unhealthyUntil = now + cfg.unhealthy_cooldown ∧
        (preflightHealth cfg st now (.exc e)).outcome =
          .error (mkExc (lit "local vllm health probe failed: " ++ e.msg))) ∧
    (∀ (cfg : BreakerCfg) (st now : ℚ) (c : Int),
      ¬ now < st → cfg.healthcheck_enabled = true → 500 ≤ c →
        (preflightHealth cfg st now (.status c)).unhealthyUntil =
          now + cfg.unhealthy_cooldown) := by
  refine ⟨?_, ?_, ?_, ?_, ?_, ?_, ?_⟩
  · intro cfg st now probe a1 a2 h
    unfold chatJson preflightHealth
    rw [if_pos h]
    exact ⟨rfl, rfl, ⟨_, rfl⟩⟩
  · intro cfg st now probe a1 a2 e1 hpf h1 hsrv
    unfold chatJson
    dsimp only
    rw [hpf]
    dsimp only
    rw [h1]
    dsimp only
    rw [if_pos hsrv]
  · intro cfg st now probe a1 a2 e1 e2 hpf h1 hsrv1 h2 hsrv2
    unfold chatJson
    dsimp only
    rw [hpf]
    dsimp only
    rw [h1]
    dsimp only
    rw [if_neg (by simp [hsrv1])]
    rw [h2]
    dsimp only
    rw [if_neg (by simp [hsrv2])]
    exact preflight_ok_until cfg st now probe hpf
  · intro raw parsed hstrip
    constructor
    · unfold runAttempt
      dsimp only
      rw [hstrip]
      rfl
    · decide
  · intro cfg st now e hlt he hsig
    unfold preflightHealth
    rw [if_neg hlt]
    simp only [he, Bool.not_true, Bool.false_eq_true, if_false]
    unfold probeHandle
    have hsig' : (isServerSideFailure e || strHas e.msg "health failed".toList) = true := hsig
    rw [if_pos hsig']
    exact ⟨rfl, rfl⟩
  · intro cfg st now e hlt he hsig
    unfold preflightHealth
    rw [if_neg hlt]
    simp only [he, Bool.not_true, Bool.false_eq_true, if_false]
    unfold probeHandle
    have hsig' : (isServerSideFailure e || strHas e.msg "health failed".toList) = false := hsig
    rw [if_neg (by intro hc; rw [hsig'] at hc; exact Bool.noConfusion hc)]
    exact ⟨rfl, rfl⟩
  · intro cfg st now c hlt he h5
    unfold preflightHealth
    rw [if_neg hlt]
    simp only [he, Bool.not_true, Bool.false_eq_true, if_false]
    rw [if_pos h5]
    unfold probeHandle
    have hsig : (isServerSideFailure
          (mkExc ("local vllm health failed: status=".toList ++ intToStr c)) ||
        strHas (mkExc ("local vllm health failed: status=".toList ++ intToStr c)).msg
          "health failed".toList) = true :=
      Bool.or_eq_true_iff.mpr (Or.inr (health_msg_has_health_failed c))
    rw [if_pos hsig]

/-- Witness for the amended C5: a cooldown fail-fast, a 502-signature call
failure tripping the breaker, a 502-signature probe exception re-raised
without marking, a connection-refused probe exception marking, and a 503
probe response marking, all at concrete inputs. -/
theorem breaker_behavior_witness :
    ((chatJson ⟨true, 45⟩ 100 10 (.status 200) (.raised (mkExc []))
        (.raised (mkExc []))).netCalls = 0 ∧
      (chatJson ⟨true, 45⟩ 100 10 (.status 200) (.raised (mkExc []))
        (.raised (mkExc []))).unhealthyUntil = 100) ∧
    (chatJson ⟨false, 45⟩ 0 10 (.status 200)
        (.raised ⟨some 502, none, lit "Bad Gateway"⟩)
        (.raised (mkExc []))).unhealthyUntil = 10 + 45 ∧
    (preflightHealth ⟨true, 45⟩ 0 10
        (.exc ⟨some 502, none, lit "Bad Gateway"⟩)).unhealthyUntil = 0 ∧
    (preflightHealth ⟨true, 45⟩ 0 10
        (.exc (mkExc (lit "connection refused")))).unhealthyUntil = 10 + 45 ∧
    (preflightHealth ⟨true, 45⟩ 0 10 (.status 503)).unhealthyUntil = 10 + 45 := by
  refine ⟨?_, ?_, ?_, ?_, ?_⟩
  · have h := breaker_behavior.1 ⟨true, 45⟩ 100 10 (.status 200)
      (.raised (mkExc [])) (.raised (mkExc [])) (by norm_num)
    exact ⟨h.1, h.2.1⟩
  · exact breaker_behavior.2.1 ⟨false, 45⟩ 0 10 (.status 200)
      (.raised ⟨some 502, none, lit "Bad Gateway"⟩) (.raised (mkExc []))
      ⟨some 502, none, lit "Bad Gateway"⟩ rfl rfl (by decide)
  · exact (breaker_behavior.2.2.2.2.1 ⟨true, 45⟩ 0 10
      ⟨some 502, none, lit "Bad Gateway"⟩ (by norm_num) rfl (by decide)).1
  · exact (breaker_behavior.2.2.2.2.2.1 ⟨true, 45⟩ 0 10
      (mkExc (lit "connection refused")) (by norm_num) rfl (by decide)).1
  · exact breaker_behavior.2.2.2.2.2.2 ⟨true, 45⟩ 0 10 503 (by norm_num) rfl (by decide)

/-- A cuda/OOM-style failure, as raised by an accelerator fault. -/
def cudaExc : ExcInfo := mkExc (lit "RuntimeError: CUDA out of memory")

/-- **C5 counterexample.** Two refutations of the claimed breaker behaviour:
`_is_server_side_failure` does not match cuda/OOM substrings, so a call
failing with such an exception leaves the breaker unmarked; and a health
probe that raises an exception with a server-side signature (here status 502)
is re-raised without marking the breaker at all. -/
theorem cuda_failure_not_marked_counterexample :
    (isServerSideFailure cudaExc = false ∧
      (chatJson ⟨false, 45⟩ 0 10 (.status 200) (.raised cudaExc)
        (.raised cudaExc)).unhealthyUntil = 0) ∧
    (isServerSideFailure ⟨some 502, none, lit "Bad Gateway"⟩ = true ∧
      (preflightHealth ⟨true, 45⟩ 0 10
        (.exc ⟨some 502, none, lit "Bad Gateway"⟩)).unhealthyUntil = 0 ∧
      (preflightHealth ⟨true, 45⟩ 0 10
          (.exc ⟨some 502, none, lit "Bad Gateway"⟩)).outcome =
        .error ⟨some 502, none, lit "Bad Gateway"⟩) := by
  exact ⟨⟨by decide, by decide⟩, by decide, by decide, by rfl⟩

/-! ## C9 — the job-store upsert callback -/

/-- A stored job used by the C9 theorems. -/
def jobC9 : ContractJob :=
  { status := lit "running", progress := 30, stage := lit "ocr_done",
    result_markdown := lit "text",
    result_json := some (.obj [(lit "stamp_status", .str (lit "YES"))]),
    runtime_meta := none, error := [] }

/-- A stamp oracle that is never consulted in these runs. -/
def stampOracleC9 : Str → Except Str StampVerdict := fun _ => .error (lit "unused")

/-- **C9 counterexample.** A callback capturing only `meta` (with a
`stageHistory`-style entry) leaves the stored job entirely unchanged: the
handler never reads the `meta` key and no `stageHistory` exists anywhere —
refuting the claimed meta merge and capped `stageHistory` append. -/
theorem job_update_meta_ignored_counterexample :
    jobUpdate 200000 stampOracleC9 jobC9
      { meta := some (.obj [(lit "stage", .str (lit "llm_start")),
                            (lit "stageHistory", .arr [.str (lit "ocr_done")])]) } = jobC9 := by
  rfl

/-- **C9 (amended).** `job_update` (i) ignores the payload's `meta` key
entirely — there is no meta merge and no `stageHistory`; (ii) leaves every
stored field unchanged when the corresponding payload fields are absent (a
payload carrying `result_markdown` or a terminal status may additionally add
stamp-detection keys to the stored `result_json`, which the absent-field
hypotheses rule out here); and (iii) merges a dict-valued payload
`result_json` into the stored `result_json` with new keys overwriting old
ones. -/
theorem job_update_amended :
    (∀ (maxC : Int) (so : Str → Except Str StampVerdict) (job : ContractJob)
        (p : JobUpdatePayload) (m₁ m₂ : Option JValue),
      jobUpdate maxC so job { p with meta := m₁ } =
        jobUpdate maxC so job { p with meta := m₂ }) ∧
    (∀ (maxC : Int) (so : Str → Except Str StampVerdict) (job : ContractJob)
        (p : JobUpdatePayload),
      p.status = none → p.stage = none → p.progress = none →
      p.result_markdown = none → p.error = none → p.result_json = none →
        jobUpdate maxC so job p = job) ∧
    (∀ (maxC : Int) (so : Str → Except Str StampVerdict) (job : ContractJob)
        (p : JobUpdatePayload) (cur inc : JObj),
      job.result_json = some (.obj cur) →
      p.status = none → p.stage = none → p.progress = none →
      p.result_markdown = none → p.error = none → p.result_json = some (.obj inc) →
        jobUpdate maxC so job p =
          { job with result_json := some (.obj (dupdate cur inc)) }) := by
  refine ⟨?_, ?_, ?_⟩
  · intro maxC so job p m₁ m₂
    rfl
  · intro maxC so job p h1 h2 h3 h4 h5 h6
    unfold jobUpdate
    rw [h1, h2, h3, h4, h5, h6]
    dsimp only
    simp only [Option.isSome_none, Bool.false_eq_true, reduceCtorEq, or_self, false_or,
      and_false, if_false]
  · intro maxC so job p cur inc hcur h1 h2 h3 h4 h5 h6
    unfold jobUpdate
    rw [h1, h2, h3, h4, h5, h6, hcur]
    dsimp only
    simp only [Option.isSome_none, Bool.false_eq_true, reduceCtorEq, or_self, false_or,
      and_false, if_false, if_true]

/-- Witness for the amended C9: the frame part at a concrete job and an
all-absent payload, and the merge part at a concrete stored/incoming pair. -/
theorem job_update_amended_witness :
    jobUpdate 200000 stampOracleC9 jobC9 {} = jobC9 ∧
      jobUpdate 200000 stampOracleC9 jobC9
          { result_json := some (.obj [(lit "risks", .arr [])]) } =
        { jobC9 with result_json := some (.obj (dupdate
            [(lit "stamp_status", .str (lit "YES"))] [(lit "risks", .arr [])])) } :=
  ⟨job_update_amended.2.1 200000 stampOracleC9 jobC9 {} rfl rfl rfl rfl rfl rfl,
   job_update_amended.2.2 200000 stampOracleC9 jobC9 _ _ _ rfl rfl rfl rfl rfl rfl rfl⟩

/-! ## C6 — progress bounds and monotonicity -/

/-- A progress list emitted by a pipeline segment: non-decreasing, every value
between `lo` and `hi`. -/
def progOk (lo hi : Int) (l : List Int) : Prop :=
  List.Chain' (fun a b => a ≤ b) l ∧ ∀ x ∈ l, lo ≤ x ∧ x ≤ hi

/-- Non-decreasing, as an executable check. -/
def nondecb : List Int → Bool
  | a :: b :: t => decide (a ≤ b) && nondecb (b :: t)
  | _ => true

theorem nondecb_chain : ∀ l : List Int, nondecb l = true →
    List.Chain' (fun a b => a ≤ b) l := by
  intro l
  induction l with
  | nil => intro h; exact List.chain'_nil
  | cons a t ih =>
    cases t with
    | nil => intro h; exact List.chain'_singleton a
    | cons b t2 =>
      intro h
      rw [nondecb, Bool.and_eq_true] at h
      exact List.chain'_cons.mpr ⟨of_decide_eq_true h.1, ih h.2⟩

theorem progOk_of_bool {lo hi : Int} {l : List Int}
    (h1 : nondecb l = true)
    (h2 : l.all (fun x => decide (lo ≤ x) && decide (x ≤ hi)) = true) :
    progOk lo hi l := by
  refine ⟨nondecb_chain l h1, ?_⟩
  intro x hx
  have hb := List.all_eq_true.mp h2 x hx
  rw [Bool.and_eq_true] at hb
  exact ⟨of_decide_eq_true hb.1, of_decide_eq_true hb.2⟩

theorem progOk_mono {lo hi lo' hi' : Int} {l : List Int} (h : progOk lo hi l)
    (h1 : lo' ≤ lo) (h2 : hi ≤ hi') : progOk lo' hi' l :=
  ⟨h.1, fun x hx => ⟨le_trans h1 (h.2 x hx).1, le_trans (h.2 x hx).2 h2⟩⟩

theorem progOk_append {lo m hi : Int} {l₁ l₂ : List Int}
    (h1 : progOk lo m l₁) (h2 : progOk m hi l₂) (hlm : lo ≤ m) (hmh : m ≤ hi) :
    progOk lo hi (l₁ ++ l₂) := by
  refine ⟨List.chain'_append.mpr ⟨h1.1, h2.1, ?_⟩, ?_⟩
  · intro x hx y hy
    exact le_trans (h1.2 x (List.mem_of_mem_getLast? hx)).2
      (h2.2 y (List.mem_of_mem_head? hy)).1
  · intro x hx
    rcases List.mem_append.mp hx with h | h
    · exact ⟨(h1.2 x h).1, le_trans (h1.2 x h).2 hmh⟩
    · exact ⟨le_trans hlm (h2.2 x h).1, (h2.2 x h).2⟩

theorem accFallback_progOk (env : PipelineEnv) (r e : String) :
    progOk 72 72 (((accFallback env r e).1).map Payload.progress) := by
  unfold accFallback
  cases env.accFallbackOcr with
  | error m => exact progOk_of_bool rfl rfl
  | ok text =>
    dsimp only
    split
    · exact progOk_of_bool rfl rfl
    · exact progOk_of_bool rfl rfl

theorem runAccurateTail_progOk (env : PipelineEnv) :
    progOk 65 72 (((runAccurateTail env).1).map Payload.progress) := by
  unfold runAccurateTail
  cases env.mineruMd with
  | none =>
    dsimp only
    rw [List.map_append]
    refine progOk_append ?_ (accFallback_progOk env _ _) (by decide) (by decide)
    exact progOk_of_bool rfl rfl
  | some raw =>
    dsimp only
    split
    · rw [List.map_append]
      refine progOk_append ?_ (accFallback_progOk env _ _) (by decide) (by decide)
      exact progOk_of_bool rfl rfl
    · exact progOk_of_bool rfl rfl

theorem runAccurate_progOk (env : PipelineEnv) :
    progOk 35 72 (((runAccurate env).1).map Payload.progress) := by
  unfold runAccurate
  dsimp only
  split
  · split
    · split
      · exact progOk_of_bool rfl rfl
      · dsimp only
        rw [List.map_append]
        refine progOk_append ?_ (runAccurateTail_progOk env) (by decide) (by decide)
        exact progOk_of_bool rfl rfl
    · exact progOk_of_bool rfl rfl
  · dsimp only
    rw [List.map_append]
    refine progOk_append ?_ (runAccurateTail_progOk env) (by decide) (by decide)
    exact progOk_of_bool rfl rfl

theorem autoBranch_progOk (env : PipelineEnv) (forceAcc includeForce : Bool)
    (text : Str) (q : QualityMetrics) (pre : List Payload)
    (hpre : progOk 15 30 (pre.map Payload.progress)) :
    progOk 15 72
      (((autoBranch env forceAcc includeForce text q pre).callbacks).map Payload.progress) := by
  unfold autoBranch
  dsimp only
  split
  · exact progOk_mono hpre (by decide) (by decide)
  · split
    · dsimp only
      rw [List.map_append, List.map_append]
      refine progOk_append ?_ (runAccurate_progOk env) (by decide) (by decide)
      refine progOk_append hpre ?_ (by decide) (by decide)
      exact progOk_of_bool rfl rfl
    · dsimp only
      rw [List.map_append, List.map_append]
      refine progOk_append ?_ (runAccurate_progOk env) (by decide) (by decide)
      refine progOk_append hpre ?_ (by decide) (by decide)
      exact progOk_of_bool rfl rfl

theorem extractPhase_progOk (env : PipelineEnv) (modeEff : Str) (forceAcc : Bool) :
    progOk 15 72 (((extractPhase env modeEff forceAcc).callbacks).map Payload.progress) := by
  unfold extractPhase
  split
  · cases env.fastOcr with
    | error m => exact progOk_of_bool rfl rfl
    | ok text =>
      dsimp only
      split
      · exact progOk_of_bool rfl rfl
      · exact autoBranch_progOk env forceAcc true text (ocrQualityMetrics text) _
          (progOk_of_bool rfl rfl)
  · split
    · dsimp only
      split
      · exact progOk_mono (runAccurate_progOk env) (by decide) (by decide)
      · exact progOk_mono (runAccurate_progOk env) (by decide) (by decide)
    · cases env.fastOcr with
      | error m => exact progOk_of_bool rfl rfl
      | ok text =>
        dsimp only
        exact autoBranch_progOk env false false text (ocrQualityMetrics text) _
          (progOk_of_bool rfl rfl)

theorem fixStage_progOk (env : PipelineEnv) (t : Str) (m : JObj) :
    progOk 74 77 (((fixStage env t m).1).map Payload.progress) := by
  unfold fixStage
  split
  · exact progOk_of_bool rfl rfl
  · exact progOk_of_bool rfl rfl

theorem postExtract_progOk (env : PipelineEnv) (t : Str) (m : JObj) :
    progOk 74 100 ((postExtract env t m).map Payload.progress) := by
  unfold postExtract
  dsimp only
  split
  · rw [List.map_append]
    refine progOk_append (show progOk 74 100 _ from ?_) ?_ (by decide) (by decide)
    · exact progOk_mono (fixStage_progOk env t m) (by decide) (by decide)
    · exact progOk_of_bool rfl rfl
  · cases env.llmOutcome with
    | timeout =>
      rw [List.map_append]
      refine progOk_append (show progOk 74 80 _ from ?_) ?_ (by decide) (by decide)
      · exact progOk_mono (fixStage_progOk env t m) (by decide) (by decide)
      · exact progOk_of_bool rfl rfl
    | failed msg =>
      rw [List.map_append]
      refine progOk_append (show progOk 74 80 _ from ?_) ?_ (by decide) (by decide)
      · exact progOk_mono (fixStage_progOk env t m) (by decide) (by decide)
      · exact progOk_of_bool rfl rfl
    | done review callMeta =>
      rw [List.map_append]
      refine progOk_append (show progOk 74 80 _ from ?_) ?_ (by decide) (by decide)
      · exact progOk_mono (fixStage_progOk env t m) (by decide) (by decide)
      · exact progOk_of_bool rfl rfl

theorem stampCallbacks_progress (env : PipelineEnv) (m : Str) :
    (stampCallbacks env m).map Payload.progress = [] ∨
      (stampCallbacks env m).map Payload.progress = [12] ∨
      (stampCallbacks env m).map Payload.progress = [12, 14] := by
  unfold stampCallbacks
  split
  · exact Or.inl rfl
  · split
    · split
      · exact Or.inr (Or.inl rfl)
      · exact Or.inr (Or.inr rfl)
    · exact Or.inl rfl

theorem doAnalyze_tail_progOk (env : PipelineEnv) :
    progOk 72 100 ((match (pipelineExt env).result with
      | .error m => [workerErrorCb (pipelineModeEff env) m]
      | .ok tm => postExtract env tm.1 tm.2).map Payload.progress) := by
  cases (pipelineExt env).result with
  | error m => exact progOk_of_bool rfl rfl
  | ok tm => exact progOk_mono (postExtract_progOk env tm.1 tm.2) (by decide) (by decide)

/-- A run with stamp detection enabled (and everything else as in `envC7`):
the stamp callbacks at progress 12 and 14 precede the `start` callback at 5. -/
def envC6 : PipelineEnv :=
  { envC7 with
    stampAttempt := true
    stampImages := true }

/-- **C6 counterexample.** With stamp detection active the run emits progress
`[12, 14, 5, 35, 65, 68, 72, 80, 100]`: the stamp callbacks (12, 14) are sent
before the `start` callback (5), so the sequence is not monotonically
non-decreasing. -/
theorem pipeline_progress_nonmonotone_counterexample :
    (doAnalyze envC6).callbacks.map Payload.progress = [12, 14, 5, 35, 65, 68, 72, 80, 100] ∧
      ¬ List.Chain' (fun a b => a ≤ b) ((doAnalyze envC6).callbacks.map Payload.progress) := by
  have hm : (doAnalyze envC6).callbacks.map Payload.progress
      = [12, 14, 5, 35, 65, 68, 72, 80, 100] := rfl
  refine ⟨hm, ?_⟩
  rw [hm]
  intro h
  exact absurd (List.chain'_cons.mp (List.chain'_cons.mp h).2).1 (by decide)

/-- **C6 (amended).** Every progress value a `_do_analyze` run emits lies
between 0 and 100, and on runs without stamp callbacks (stamp detection
disabled, page count above the stamp skip threshold, or page rendering
failed) the emitted progress sequence is monotonically non-decreasing; the
stamp callbacks at 12 and 14, emitted before the `start` callback at 5, are
the only violation of monotonicity. -/
theorem pipeline_progress_amended (env : PipelineEnv) :
    (∀ x ∈ (doAnalyze env).callbacks.map Payload.progress, 0 ≤ x ∧ x ≤ 100) ∧
    (stampCallbacks env env.reviewMode = [] →
      List.Chain' (fun a b => a ≤ b) ((doAnalyze env).callbacks.map Payload.progress)) := by
  have h0 : (doAnalyze env).callbacks =
      stampCallbacks env env.reviewMode ++
        [running 5 "start" (some (pipelineModeEff env))
          (some [(lit "pages", JValue.num (env.pageCount : ℚ))])] ++
        (pipelineExt env).callbacks ++
        (match (pipelineExt env).result with
         | .error m => [workerErrorCb (pipelineModeEff env) m]
         | .ok tm => postExtract env tm.1 tm.2) := rfl
  have hcb : (doAnalyze env).callbacks =
      stampCallbacks env env.reviewMode ++
        ([running 5 "start" (some (pipelineModeEff env))
            (some [(lit "pages", JValue.num (env.pageCount : ℚ))])] ++
         ((pipelineExt env).callbacks ++
          (match (pipelineExt env).result with
           | .error m => [workerErrorCb (pipelineModeEff env) m]
           | .ok tm => postExtract env tm.1 tm.2))) := by
    rw [h0]
    simp only [List.append_assoc]
  have hcore : progOk 5 100
      (([running 5 "start" (some (pipelineModeEff env))
          (some [(lit "pages", JValue.num (env.pageCount : ℚ))])] ++
        ((pipelineExt env).callbacks ++
         (match (pipelineExt env).result with
          | .error m => [workerErrorCb (pipelineModeEff env) m]
          | .ok tm => postExtract env tm.1 tm.2))).map Payload.progress) := by
    rw [List.map_append, List.map_append]
    refine progOk_append ?_
      (progOk_append (extractPhase_progOk env (pipelineModeEff env) (pipelineForceAcc env))
        (doAnalyze_tail_progOk env) (by decide) (by decide)) (by decide) (by decide)
    exact progOk_of_bool rfl rfl
  constructor
  · intro x hx
    rw [hcb, List.map_append] at hx
    rcases List.mem_append.mp hx with hxl | hxr
    · rcases stampCallbacks_progress env env.reviewMode with h | h | h <;> rw [h] at hxl
      · cases hxl
      · rw [List.mem_singleton] at hxl
        subst hxl
        decide
      · simp only [List.mem_cons, List.not_mem_nil, or_false] at hxl
        rcases hxl with rfl | rfl <;> decide
    · have hb := hcore.2 x hxr
      exact ⟨le_trans (by decide) hb.1, hb.2⟩
  · intro hS
    rw [hcb, hS, List.nil_append]
    exact hcore.1

/-- Witness for the amended C6: a value of the stamp-enabled run checked
against the bounds, and the monotone conclusion on the stamp-free `envC7`
run. -/
theorem pipeline_progress_amended_witness :
    ((12 : Int) ∈ (doAnalyze envC6).callbacks.map Payload.progress ∧
        (0 : Int) ≤ 12 ∧ (12 : Int) ≤ 100) ∧
      stampCallbacks envC7 envC7.reviewMode = [] ∧
        List.Chain' (fun a b => a ≤ b) ((doAnalyze envC7).callbacks.map Payload.progress) := by
  have hm : (doAnalyze envC6).callbacks.map Payload.progress
      = [12, 14, 5, 35, 65, 68, 72, 80, 100] := rfl
  refine ⟨⟨?_, (pipeline_progress_amended envC6).1 12 ?_⟩, rfl,
    (pipeline_progress_amended envC7).2 rfl⟩ <;> rw [hm] <;> decide

/-! ## C3 — the risk/suggestion split -/

theorem dhas_iff {o : JObj} {k : Str} : dhas o k = true ↔ ∃ v, dget o k = some v := by
  unfold dhas dget
  constructor
  · intro h
    rcases List.any_eq_true.mp h with ⟨p, hp, hpk⟩
    have hs : (List.find? (fun p => p.1 == k) o).isSome = true :=
      List.find?_isSome.mpr ⟨p, hp, hpk⟩
    rcases Option.isSome_iff_exists.mp hs with ⟨q, hq⟩
    exact ⟨q.2, by rw [hq]; rfl⟩
  · intro hv
    rcases hv with ⟨v, hv⟩
    cases hfind : o.find? fun p => p.1 == k with
    | none => rw [hfind] at hv; cases hv
    | some q =>
      have hq := List.find?_some hfind
      exact List.any_eq_true.mpr ⟨q, List.mem_of_find?_eq_some hfind, hq⟩

theorem dget_none_of_not_dhas {o : JObj} {k : Str} (h : ¬ dhas o k = true) :
    dget o k = none := by
  have hfalse : dhas o k = false := by
    cases hdd : dhas o k
    · rfl
    · exact absurd hdd h
  refine dget_eq_none ?_
  intro p hp hpe
  exact absurd (beq_iff_eq.mpr hpe) (by simpa using List.any_eq_false.mp hfalse p hp)

theorem clearFold_not_mem (keys : List Str) (sk : Str) :
    ∀ (o : JObj), sk ∉ keys →
      dget (keys.foldl (fun acc k => if dhas acc k then dset acc k (.str []) else acc) o) sk
        = dget o sk := by
  induction keys with
  | nil => intro o h; rfl
  | cons k rest ih =>
    intro o h
    rw [List.foldl_cons]
    have hne : sk ≠ k := fun he => h (he ▸ List.mem_cons_self k rest)
    rw [ih _ (fun he => h (List.mem_cons_of_mem k he))]
    by_cases hd : dhas o k
    · rw [if_pos hd, dget_dset_ne hne]
    · rw [if_neg hd]

theorem clearFold_mem (keys : List Str) (sk : Str) :
    ∀ (o : JObj), sk ∈ keys →
      dget (keys.foldl (fun acc k => if dhas acc k then dset acc k (.str []) else acc) o) sk
          = none ∨
        dget (keys.foldl (fun acc k => if dhas acc k then dset acc k (.str []) else acc) o) sk
          = some (.str []) := by
  induction keys with
  | nil => intro o h; cases h
  | cons k rest ih =>
    intro o h
    rw [List.foldl_cons]
    by_cases hmem : sk ∈ rest
    · exact ih _ hmem
    · have hsk : sk = k := by
        rcases List.mem_cons.mp h with h' | h'
        · exact h'
        · exact absurd h' hmem
      subst hsk
      rw [clearFold_not_mem rest sk _ hmem]
      by_cases hd : dhas o sk
      · rw [if_pos hd]
        exact Or.inr (dget_dset_self o sk (.str []))
      · rw [if_neg hd]
        exact Or.inl (dget_none_of_not_dhas hd)

theorem split_clears (node : JObj) (v : JValue) (hv : v ∈ nodeNormalizedRisks node)
    (o : JObj) (ho : v = .obj o) (sk : Str) (hsk : sk ∈ suggestionKeys)
    (hd : dhas o sk = true) : dget o sk = some (.str []) := by
  rcases List.mem_map.mp hv with ⟨i, hi, hvi⟩
  cases i with
  | obj o0 =>
    have hco : o = suggestionKeys.foldl
        (fun acc k => if dhas acc k then dset acc k (.str []) else acc) o0 := by
      rw [ho] at hvi
      unfold splitRiskItem at hvi
      dsimp only at hvi
      exact (JValue.obj.injEq _ _ ▸ hvi).symm
    rcases clearFold_mem suggestionKeys sk o0 hsk with hc | hc
    · rw [hco] at hd
      rcases dhas_iff.mp hd with ⟨w, hw⟩
      rw [hw] at hc
      cases hc
    · rw [hco]
      exact hc
  | null => rw [ho] at hvi; unfold splitRiskItem at hvi; exact (JValue.noConfusion hvi)
  | bool b => rw [ho] at hvi; unfold splitRiskItem at hvi; exact (JValue.noConfusion hvi)
  | num q => rw [ho] at hvi; unfold splitRiskItem at hvi; exact (JValue.noConfusion hvi)
  | str s => rw [ho] at hvi; unfold splitRiskItem at hvi; exact (JValue.noConfusion hvi)
  | arr l => rw [ho] at hvi; unfold splitRiskItem at hvi; exact (JValue.noConfusion hvi)

theorem processNode_risk_key (node : JObj) (k : Str) (hk : nodeRiskKey node = some k) :
    dget (processNode node) k = some (.arr (nodeNormalizedRisks node)) := by
  have hkmem : k ∈ riskKeys := List.mem_of_find?_eq_some hk
  simp only [riskKeys, List.mem_cons, List.not_mem_nil, or_false] at hkmem
  have hmir : dget (riskMirror node) k = some (.arr (nodeNormalizedRisks node)) := by
    unfold riskMirror
    rw [hk]
    dsimp only
    rcases hkmem with rfl | rfl | rfl
    · rw [if_pos (by decide), if_neg (by decide), dget_dset_ne (by decide), dget_dset_self]
    · rw [if_neg (by decide), if_pos (by decide), dget_dset_ne (by decide), dget_dset_self]
    · rw [if_pos (by decide), if_pos (by decide), dget_dset_ne (by decide),
        dget_dset_ne (by decide), dget_dset_self]
  unfold processNode
  dsimp only
  rcases hkmem with rfl | rfl | rfl <;>
    rw [dget_dset_ne (by decide), dget_dset_ne (by decide), hmir]

/-- The cleaned suggestion text `_normalize_improvement_item` extracts from a
raw item (independent of the running index). -/
def rawSug (r : JValue) : Str :=
  match r with
  | .str s => cleanSuggestionText s
  | .obj o => cleanSuggestionText (firstNonEmptyText (suggestionKeys.map (fun k => dget o k)))
  | _ => []

theorem normalizeImprovementItem_eq (r : JValue) (idx : Nat) :
    normalizeImprovementItem r idx =
      if (rawSug r).isEmpty then none
      else some [("title".toList, .str (mkTitle idx)), ("problem".toList, .str []),
                 ("suggestion".toList, .str (rawSug r))] := by
  cases r <;> rfl

theorem entryKey_normalized (t sg : Str) :
    entryKey [("title".toList, .str t), ("problem".toList, .str []),
      ("suggestion".toList, .str sg)] = pyLower (pyStrip sg) := rfl

theorem entryKey_setTitle (t sg : Str) (idx : Nat) :
    entryKey (setTitle [("title".toList, .str t), ("problem".toList, .str []),
      ("suggestion".toList, .str sg)] idx) = pyLower (pyStrip sg) := rfl

theorem buildGo_sub : ∀ (raw : List JValue) (seen : List Str) (idx : Nat) (acc : List JObj)
    (e : JObj), e ∈ acc → e ∈ buildImprovementsGo raw seen idx acc := by
  intro raw
  induction raw with
  | nil =>
    intro seen idx acc e he
    rw [buildImprovementsGo]
    exact List.mem_reverse.mpr he
  | cons r rest ih =>
    intro seen idx acc e he
    rw [buildImprovementsGo]
    cases hn : normalizeImprovementItem r idx with
    | none =>
      dsimp only
      exact ih seen idx acc e he
    | some e2 =>
      dsimp only
      split
      · exact ih _ _ _ e he
      · exact ih _ _ _ e (List.mem_cons_of_mem _ he)

theorem buildGo_covers (k : Str) (hk : k.isEmpty = false) :
    ∀ (raw : List JValue) (seen : List Str) (idx : Nat) (acc : List JObj),
      (∃ r ∈ raw, pyLower (pyStrip (rawSug r)) = k) →
      (seen.contains k = true → ∃ e ∈ acc, entryKey e = k) →
      ∃ e ∈ buildImprovementsGo raw seen idx acc, entryKey e = k := by
  intro raw
  induction raw with
  | nil =>
    intro seen idx acc hex _
    rcases hex with ⟨r, hr, _⟩
    cases hr
  | cons r rest ih =>
    intro seen idx acc hex hseen
    rw [buildImprovementsGo, normalizeImprovementItem_eq r idx]
    cases hsg : (rawSug r).isEmpty with
    | true =>
      rw [if_pos rfl]
      dsimp only
      refine ih seen idx acc ?_ hseen
      rcases hex with ⟨r', hr', hkr⟩
      rcases List.mem_cons.mp hr' with heq | hmem
      · subst heq
        exfalso
        have he : rawSug r' = [] := List.isEmpty_iff.mp hsg
        rw [he] at hkr
        rw [← hkr] at hk
        exact absurd hk (by decide)
      · exact ⟨r', hmem, hkr⟩
    | false =>
      rw [if_neg (by simp)]
      dsimp only
      rw [entryKey_normalized]
      cases hbr : ((pyLower (pyStrip (rawSug r))).isEmpty
          || seen.contains (pyLower (pyStrip (rawSug r)))) with
      | true =>
        rw [if_pos rfl]
        rcases hex with ⟨r', hr', hkr⟩
        rcases List.mem_cons.mp hr' with heq | hmem
        · subst heq
          rw [Bool.or_eq_true_iff] at hbr
          rcases hbr with hb | hb
          · rw [hkr] at hb
            rw [hb] at hk
            cases hk
          · rw [hkr] at hb
            rcases hseen hb with ⟨e, he, hek⟩
            exact ⟨e, buildGo_sub rest seen idx acc e he, hek⟩
        · exact ih seen idx acc ⟨r', hmem, hkr⟩ hseen
      | false =>
        rw [if_neg (by simp)]
        rcases hex with ⟨r', hr', hkr⟩
        rcases List.mem_cons.mp hr' with heq | hmem
        · subst heq
          refine ⟨setTitle [("title".toList, .str (mkTitle idx)), ("problem".toList, .str []),
            ("suggestion".toList, .str (rawSug r'))] idx,
            buildGo_sub rest _ _ _ _ (List.mem_cons_self _ _), ?_⟩
          rw [entryKey_setTitle]
          exact hkr
        · refine ih (pyLower (pyStrip (rawSug r)) :: seen) (idx + 1)
            (setTitle [("title".toList, .str (mkTitle idx)), ("problem".toList, .str []),
              ("suggestion".toList, .str (rawSug r))] idx :: acc) ⟨r', hmem, hkr⟩ ?_
          intro hc
          rw [List.contains_cons, Bool.or_eq_true_iff] at hc
          rcases hc with hc | hc
          · have hkk : k = pyLower (pyStrip (rawSug r)) := beq_iff_eq.mp hc
            subst hkk
            exact ⟨setTitle [("title".toList, .str (mkTitle idx)), ("problem".toList, .str []),
              ("suggestion".toList, .str (rawSug r))] idx, List.mem_cons_self _ _,
              by rw [entryKey_setTitle]⟩
          · rcases hseen hc with ⟨e, he, hek⟩
            exact ⟨e, List.mem_cons_of_mem _ he, hek⟩

theorem nodeMoved_in_improvements (node : JObj) (m : Str) (hm : m ∈ nodeMoved node)
    (hk : (pyLower (pyStrip (cleanSuggestionText m))).isEmpty = false) :
    ∃ e ∈ buildImprovements (nodeImprovementRaw node),
      entryKey e = pyLower (pyStrip (cleanSuggestionText m)) := by
  refine buildGo_covers (pyLower (pyStrip (cleanSuggestionText m))) hk
    (nodeImprovementRaw node) [] 1 [] ⟨.str m, ?_, rfl⟩ ?_
  · unfold nodeImprovementRaw
    exact List.mem_append_right _ (List.mem_map_of_mem _ hm)
  · intro hc
    rw [List.contains_nil] at hc
    exact Bool.noConfusion hc

/-- The C3 counterexample node: one risk item with suggestion `"RISK  1"`. -/
def x3 : JObj :=
  [("risks".toList, JValue.arr [JValue.obj [("suggestion".toList,
      JValue.str "RISK  1".toList)]])]

/-- **C3 counterexample.** A risk item arrives with the populated suggestion
`"RISK  1"`; the split pass blanks the risk's suggestion field and collects
the cleaned text `"RISK 1"` as moved, but the improvement-normalization step
cleans that text a second time, which erases it, so the improvements list
stays empty: the moved suggestion text never appears as an improvement
entry. -/
theorem risk_split_moved_lost_counterexample :
    nodeMoved x3 = ["RISK 1".toList] ∧
      ∃ r : JObj, enforceRiskSuggestionSplit (.obj x3) = .obj r ∧
        dget r "risks".toList = some (.arr [.obj [("suggestion".toList, .str [])]]) ∧
        dget r "improvements".toList = some (.arr []) := by
  exact ⟨rfl, _, rfl, rfl, rfl⟩

/-- **C3 (amended).** After `_process_node`: (i) the found risk key holds the
normalized risk list; (ii) in every normalized risk item every present
suggestion-like field is the empty string; (iii) every moved suggestion text
whose re-cleaned dedup key is non-empty appears (re-cleaned) as an entry of
the improvements list stored under `improvements`, keyed by its lower-cased,
stripped, re-cleaned text. -/
theorem risk_suggestion_split_amended :
    (∀ (node : JObj) (k : Str), nodeRiskKey node = some k →
        dget (processNode node) k = some (.arr (nodeNormalizedRisks node))) ∧
    (∀ (node : JObj) (v : JValue), v ∈ nodeNormalizedRisks node →
        ∀ (o : JObj), v = .obj o → ∀ sk ∈ suggestionKeys,
          dhas o sk = true → dget o sk = some (.str [])) ∧
    (∀ (node : JObj) (m : Str), m ∈ nodeMoved node →
        (pyLower (pyStrip (cleanSuggestionText m))).isEmpty = false →
        dget (processNode node) ("improvements".toList) =
            some (.arr ((buildImprovements (nodeImprovementRaw node)).map .obj)) ∧
          ∃ e ∈ buildImprovements (nodeImprovementRaw node),
            entryKey e = pyLower (pyStrip (cleanSuggestionText m))) := by
  refine ⟨fun node k hk => processNode_risk_key node k hk,
    fun node v hv o ho sk hsk hd => split_clears node v hv o ho sk hsk hd,
    fun node m hm hk => ⟨?_, nodeMoved_in_improvements node m hm hk⟩⟩
  unfold processNode
  dsimp only
  exact dget_dset_self _ _ _

/-- The C3 witness node: one risk item whose suggestion `"请及时复核"`
survives re-cleaning. -/
def wNode : JObj :=
  [("risks".toList, JValue.arr [JValue.obj [("suggestion".toList,
      JValue.str "请及时复核".toList)]])]

/-- Witness for the amended C3 at `wNode`. -/
theorem risk_suggestion_split_amended_witness :
    (nodeRiskKey wNode = some ("risks".toList) ∧
      dget (processNode wNode) ("risks".toList) = some (.arr (nodeNormalizedRisks wNode))) ∧
    ((JValue.obj [("suggestion".toList, JValue.str [])] ∈ nodeNormalizedRisks wNode ∧
        "suggestion".toList ∈ suggestionKeys ∧
        dhas [("suggestion".toList, JValue.str [])] ("suggestion".toList) = true) ∧
      dget [("suggestion".toList, JValue.str [])] ("suggestion".toList) = some (.str [])) ∧
    (("请及时复核".toList ∈ nodeMoved wNode ∧
        (pyLower (pyStrip (cleanSuggestionText "请及时复核".toList))).isEmpty = false) ∧
      (dget (processNode wNode) ("improvements".toList) =
          some (.arr ((buildImprovements (nodeImprovementRaw wNode)).map .obj)) ∧
        ∃ e ∈ buildImprovements (nodeImprovementRaw wNode),
          entryKey e = pyLower (pyStrip (cleanSuggestionText "请及时复核".toList)))) := by
  have hm1 : JValue.obj [("suggestion".toList, JValue.str [])] ∈ nodeNormalizedRisks wNode :=
    List.mem_cons_self _ _
  have hm2 : "suggestion".toList ∈ suggestionKeys := List.mem_cons_self _ _
  have hm3 : "请及时复核".toList ∈ nodeMoved wNode := List.mem_cons_self _ _
  exact ⟨⟨rfl, risk_suggestion_split_amended.1 wNode ("risks".toList) rfl⟩,
    ⟨⟨hm1, hm2, rfl⟩, risk_suggestion_split_amended.2.1 wNode _ hm1 _ rfl _ hm2 rfl⟩,
    ⟨⟨hm3, rfl⟩, risk_suggestion_split_amended.2.2 wNode _ hm3 rfl⟩⟩

/-! ## C4 — idempotence of the split pass -/

theorem clearFold_back (keys : List Str) :
    ∀ (o : JObj) (p : Str × JValue),
      p ∈ keys.foldl (fun acc k => if dhas acc k then dset acc k (.str []) else acc) o →
      p.1 ∉ keys → p ∈ o := by
  induction keys with
  | nil => intro o p hp _; exact hp
  | cons k rest ih =>
    intro o p hp hnk
    have h1 : p.1 ∉ rest := fun hc => hnk (List.mem_cons_of_mem _ hc)
    have h2 : p.1 ≠ k := fun hc => hnk (hc ▸ List.mem_cons_self _ _)
    rw [List.foldl_cons] at hp
    have hp' : p ∈ (if dhas o k then dset o k (.str []) else o) := ih _ p hp h1
    by_cases hd : dhas o k
    · rw [if_pos hd] at hp'
      unfold dset at hp'
      rw [if_pos hd] at hp'
      rcases List.mem_map.mp hp' with ⟨q, hq, hqe⟩
      by_cases hqk : (q.1 == k) = true
      · rw [if_pos hqk] at hqe
        exact absurd (by rw [← hqe]) h2
      · rw [if_neg hqk] at hqe
        rw [← hqe]
        exact hq
    · rw [if_neg hd] at hp'
      exact hp'

theorem clearFold_pairs (keys : List Str) :
    ∀ (o : JObj) (p : Str × JValue),
      p ∈ keys.foldl (fun acc k => if dhas acc k then dset acc k (.str []) else acc) o →
      p.1 ∈ keys → p = (p.1, JValue.str []) := by
  induction keys with
  | nil => intro o p _ hk; cases hk
  | cons k rest ih =>
    intro o p hp hk
    rw [List.foldl_cons] at hp
    by_cases hmem : p.1 ∈ rest
    · exact ih _ p hp hmem
    · have hpk : p.1 = k := by
        rcases List.mem_cons.mp hk with h | h
        · exact h
        · exact absurd h hmem
      have hp' : p ∈ (if dhas o k then dset o k (.str []) else o) :=
        clearFold_back rest _ p hp hmem
      by_cases hd : dhas o k
      · rw [if_pos hd] at hp'
        unfold dset at hp'
        rw [if_pos hd] at hp'
        rcases List.mem_map.mp hp' with ⟨q, hq, hqe⟩
        by_cases hqk : (q.1 == k) = true
        · rw [if_pos hqk] at hqe
          rw [← hqe]
        · rw [if_neg hqk] at hqe
          exfalso
          rw [hqe] at hqk
          exact hqk (beq_iff_eq.mpr hpk)
      · rw [if_neg hd] at hp'
        exact absurd
          (show dhas o k = true from List.any_eq_true.mpr ⟨p, hp', beq_iff_eq.mpr hpk⟩) hd

theorem clearFold_id (keys : List Str) :
    ∀ (o : JObj), (∀ p ∈ o, p.1 ∈ keys → p = (p.1, JValue.str [])) →
      keys.foldl (fun acc k => if dhas acc k then dset acc k (.str []) else acc) o = o := by
  induction keys with
  | nil => intro o h; rfl
  | cons k rest ih =>
    intro o h
    rw [List.foldl_cons]
    have hstep : (if dhas o k then dset o k (.str []) else o) = o := by
      by_cases hd : dhas o k
      · rw [if_pos hd]
        unfold dset
        rw [if_pos hd]
        conv_rhs => rw [← List.map_id o]
        refine List.map_congr_left ?_
        intro q hq
        by_cases hqk : (q.1 == k) = true
        · rw [if_pos hqk]
          have hq1 : q.1 = k := beq_iff_eq.mp hqk
          have hqv := h q hq (hq1 ▸ List.mem_cons_self _ _)
          rw [hqv, hq1]
          rfl
        · rw [if_neg hqk]
          rfl
      · rw [if_neg hd]
    rw [hstep]
    exact ih o (fun p hp hpk => h p hp (List.mem_cons_of_mem _ hpk))

theorem firstNonEmptyText_blank : ∀ vs : List (Option JValue),
    (∀ v ∈ vs, v = none ∨ v = some (.str [])) → firstNonEmptyText vs = [] := by
  intro vs
  induction vs with
  | nil => intro h; rfl
  | cons v rest ih =>
    intro h
    rcases h v (List.mem_cons_self _ _) with rfl | rfl
    · rw [show firstNonEmptyText (none :: rest) = firstNonEmptyText rest from rfl]
      exact ih (fun w hw => h w (List.mem_cons_of_mem _ hw))
    · rw [show firstNonEmptyText (some (.str []) :: rest) = firstNonEmptyText rest from rfl]
      exact ih (fun w hw => h w (List.mem_cons_of_mem _ hw))

theorem splitRiskItem_idem (item : JValue) :
    splitRiskItem ((splitRiskItem item).1) = ((splitRiskItem item).1, none) := by
  cases item with
  | obj o =>
    have hC : (splitRiskItem (.obj o)).1 = .obj (suggestionKeys.foldl
        (fun acc k => if dhas acc k then dset acc k (.str []) else acc) o) := rfl
    rw [hC]
    unfold splitRiskItem
    dsimp only
    have hid := clearFold_id suggestionKeys
      (suggestionKeys.foldl (fun acc k => if dhas acc k then dset acc k (.str []) else acc) o)
      (fun p hp hk => clearFold_pairs suggestionKeys o p hp hk)
    have hblank : firstNonEmptyText (suggestionKeys.map (fun k =>
        dget (suggestionKeys.foldl
          (fun acc k => if dhas acc k then dset acc k (.str []) else acc) o) k)) = [] := by
      refine firstNonEmptyText_blank _ ?_
      intro v hv
      rcases List.mem_map.mp hv with ⟨k, hk, hkv⟩
      rcases clearFold_mem suggestionKeys k o hk with hc | hc
      · exact Or.inl (by rw [← hkv]; exact hc)
      · exact Or.inr (by rw [← hkv]; exact hc)
    rw [hid, hblank]
    rfl
  | null => rfl
  | bool b => rfl
  | num q => rfl
  | str s => rfl
  | arr l => rfl

theorem normalize_entry_stable (t sg : Str) (idx : Nat)
    (h1 : pyStrip sg = sg) (h2 : cleanSuggestionText sg = sg) (h3 : sg.isEmpty = false) :
    normalizeImprovementItem
        (.obj [("title".toList, .str t), ("problem".toList, .str []),
               ("suggestion".toList, .str sg)]) idx =
      some [("title".toList, .str (mkTitle idx)), ("problem".toList, .str []),
            ("suggestion".toList, .str sg)] := by
  have hf : firstNonEmptyText (suggestionKeys.map (fun k => dget
      [("title".toList, JValue.str t), ("problem".toList, JValue.str []),
       ("suggestion".toList, JValue.str sg)] k)) = sg := by
    rw [show (suggestionKeys.map (fun k => dget
        [("title".toList, JValue.str t), ("problem".toList, JValue.str []),
         ("suggestion".toList, JValue.str sg)] k))
      = [some (JValue.str sg), none, none, none, none, none] from rfl]
    rw [show firstNonEmptyText [some (JValue.str sg), none, none, none, none, none]
      = if (pyStrip sg).isEmpty then firstNonEmptyText [none, none, none, none, none]
        else pyStrip sg from rfl]
    rw [h1, if_neg (by simp [h3])]
  unfold normalizeImprovementItem
  dsimp only
  rw [hf, h2, if_neg (by simp [h3])]

/-- The C4 counterexample input: an improvements list holding the raw text
`"RISK  1"`. -/
def x4 : JObj := [("improvements".toList, JValue.arr [JValue.str "RISK  1".toList])]

/-- The single improvement entry the first pass builds from `x4`. -/
def x4Entry : JObj :=
  [("title".toList, JValue.str (mkTitle 1)), ("problem".toList, JValue.str []),
   ("suggestion".toList, JValue.str "RISK 1".toList)]

/-- **C4 counterexample.** On `x4` the first pass normalizes the raw text
`"RISK  1"` into an entry with suggestion `"RISK 1"`; the second pass
re-cleans that suggestion, which erases it, and drops the entry — so applying
the split twice differs from applying it once. -/
theorem enforce_not_idempotent_counterexample :
    enforceRiskSuggestionSplit (.obj x4) =
        .obj [("improvements".toList, .arr [.obj x4Entry]),
              ("改进措施".toList, .arr [.obj x4Entry])] ∧
      enforceRiskSuggestionSplit (enforceRiskSuggestionSplit (.obj x4)) =
        .obj [("improvements".toList, .arr []), ("改进措施".toList, .arr [])] ∧
      enforceRiskSuggestionSplit (enforceRiskSuggestionSplit (.obj x4)) ≠
        enforceRiskSuggestionSplit (.obj x4) := by
  refine ⟨rfl, rfl, fun h => ?_⟩
  rw [show enforceRiskSuggestionSplit (enforceRiskSuggestionSplit (.obj x4)) =
      .obj [("improvements".toList, .arr []), ("改进措施".toList, .arr [])] from rfl,
    show enforceRiskSuggestionSplit (.obj x4) =
      .obj [("improvements".toList, .arr [.obj x4Entry]),
            ("改进措施".toList, .arr [.obj x4Entry])] from rfl] at h
  simp at h

/-- **C4 (amended).** The split pass is not idempotent on whole results (the
second application re-cleans every improvement suggestion; see the
counterexample). What does hold: (i) the per-risk-item half is idempotent —
re-splitting an already split risk item returns it unchanged and moves
nothing; (ii) an improvement entry whose suggestion text is a fixed point of
both the whitespace strip and the suggestion cleaner is reproduced verbatim
(modulo the running title index) when normalized again, so a second pass
only alters entries whose text is unstable under the cleaner. -/
theorem enforce_split_idempotence_amended :
    (∀ item : JValue,
        splitRiskItem ((splitRiskItem item).1) = ((splitRiskItem item).1, none)) ∧
    (∀ (t sg : Str) (idx : Nat), pyStrip sg = sg → cleanSuggestionText sg = sg →
        sg.isEmpty = false →
        normalizeImprovementItem
            (.obj [("title".toList, .str t), ("problem".toList, .str []),
                   ("suggestion".toList, .str sg)]) idx =
          some [("title".toList, .str (mkTitle idx)), ("problem".toList, .str []),
                ("suggestion".toList, .str sg)]) :=
  ⟨splitRiskItem_idem, normalize_entry_stable⟩

/-- Witness for the amended C4: re-normalizing the stable entry `"请及时复核"`
under a fresh index. -/
theorem enforce_split_idempotence_amended_witness :
    pyStrip "请及时复核".toList = "请及时复核".toList ∧
      cleanSuggestionText "请及时复核".toList = "请及时复核".toList ∧
      ("请及时复核".toList).isEmpty = false ∧
      normalizeImprovementItem
          (.obj [("title".toList, .str (mkTitle 1)), ("problem".toList, .str []),
                 ("suggestion".toList, .str "请及时复核".toList)]) 2 =
        some [("title".toList, .str (mkTitle 2)), ("problem".toList, .str []),
              ("suggestion".toList, .str "请及时复核".toList)] :=
  ⟨rfl, rfl, rfl,
    enforce_split_idempotence_amended.2 (mkTitle 1) "请及时复核".toList 2 rfl rfl rfl⟩

end CRW
